import Mathlib

/-!
# Verification of the myokit symbolic-expression core

Shallow embedding of `src/myokit/_expressions.py` (class `Expression` and its
concrete subclasses) together with proofs about the embedded operations:
structural equality and hashing via the reverse-Polish canonical form,
numerical evaluation with its diagnostic error messages, unit evaluation with
its per-node cache, the symbolic partial-derivative calculator, rendering in
`mmt` syntax, cloning, and the constructor-propagated `_has_partials` /
`_has_initials` flags.

Conventions used throughout:

* Python floats are modelled as rationals (`ℚ`); the claims under study only
  involve values on which float arithmetic is exact.  Transcendental results
  (`log`, fractional powers) are not representable and are modelled as
  evaluation failures, documented at their definitions.
* Fallible Python code is modelled with `Except`: an `Expression` method that
  can raise maps to a function returning `Except` of an error type.
* The external model container (class `Variable`, `Component`, `Unit`
  pretty-printing, `myokit.strfloat`) is not part of the source file; the
  pieces of it that the expression code consults are modelled from the
  specification as fields of `VarH` (see its doc comment) and as the
  `strfloat` normalisation rules of the spec.
-/

namespace Myokit

/-! ## Decimal numerals

`Name._polishb` writes `str(id(variable))`, a decimal numeral, into the
canonical form.  We implement decimal numerals with an explicit fuel argument
so that they evaluate by kernel reduction, and prove the facts needed later:
every emitted character is a digit, and the numeral determines the number.
-/

/-- Digit character for a value below ten (values ten or larger only occur as
an unreachable catch-all). -/
def digitChar (n : Nat) : Char :=
  match n with
  | 0 => '0' | 1 => '1' | 2 => '2' | 3 => '3' | 4 => '4'
  | 5 => '5' | 6 => '6' | 7 => '7' | 8 => '8' | _ => '9'

/-- Decimal digits of a natural number, most significant first, with fuel. -/
def natDigitsF : Nat → Nat → List Char
  | 0, _ => []
  | fuel + 1, n =>
    if n < 10 then [digitChar n]
    else natDigitsF fuel (n / 10) ++ [digitChar (n % 10)]

/-- Decimal numeral of a natural number (`str(n)` in Python). -/
def natStr (n : Nat) : String := String.mk (natDigitsF (n + 1) n)

/-- Decimal numeral of an integer (`str(z)` in Python for integers). -/
def intStr (z : Int) : String :=
  if z < 0 then "-" ++ natStr z.natAbs else natStr z.natAbs

/-! ## Units

The class `myokit.Unit` lives outside the source file.  Modelled from the
spec: an immutable value with seven rational exponents, one per base
dimension, and a scale factor stored as a logarithmic magnitude; operations
`mul`, `div`, `pow(rational)`, `eq`, and a distinguished `dimensionless`
constant with all-zero exponents and unit scale. -/
structure MUnit where
  eKg : ℚ
  eM : ℚ
  eS : ℚ
  eA : ℚ
  eK : ℚ
  eCd : ℚ
  eMol : ℚ
  logMult : ℚ
  deriving DecidableEq

/-- Unit with all-zero exponents and unit scale (`myokit.units.dimensionless`). -/
def dimensionlessU : MUnit := ⟨0, 0, 0, 0, 0, 0, 0, 0⟩

/-- Product of two units: exponents add, scale factors multiply (logarithmic
magnitudes add). -/
def mulU (u v : MUnit) : MUnit :=
  ⟨u.eKg + v.eKg, u.eM + v.eM, u.eS + v.eS, u.eA + v.eA, u.eK + v.eK,
   u.eCd + v.eCd, u.eMol + v.eMol, u.logMult + v.logMult⟩

/-- Quotient of two units. -/
def divU (u v : MUnit) : MUnit :=
  ⟨u.eKg - v.eKg, u.eM - v.eM, u.eS - v.eS, u.eA - v.eA, u.eK - v.eK,
   u.eCd - v.eCd, u.eMol - v.eMol, u.logMult - v.logMult⟩

/-- Reciprocal of a unit (`1 / unit`). -/
def invU (u : MUnit) : MUnit := divU dimensionlessU u

/-- Rational power of a unit. -/
def powU (u : MUnit) (e : ℚ) : MUnit :=
  ⟨u.eKg * e, u.eM * e, u.eS * e, u.eA * e, u.eK * e,
   u.eCd * e, u.eMol * e, u.logMult * e⟩

/-- Rendering of a unit (`str(unit)`).  The pretty-printer of `myokit.Unit`
is outside the source file; we use a canonical exponent listing.  Only the
fact that it is a fixed function of the unit matters to the theorems. -/
def unitStr (u : MUnit) : String :=
  "[" ++ toString u.eKg ++ "," ++ toString u.eM ++ "," ++ toString u.eS ++ ","
      ++ toString u.eA ++ "," ++ toString u.eK ++ "," ++ toString u.eCd ++ ","
      ++ toString u.eMol ++ ";" ++ toString u.logMult ++ "]"

/-! ## Variable handles

Modelled from the spec (section 6.1, variable handle contract): the model
container exposes, per variable, a qualified name, a declared unit (or none),
constancy / binding / state flags, a state value, and the enclosing model's
time unit.  Expression identity uses handle identity, which we carry as
`objId` (the value of Python's `id()`); two handles are the same object if
and only if they have the same `objId`. -/
structure VarH where
  objId : Nat
  qname : String
  -- declared unit, flags, state value and time unit per the contract;
  -- `rhsVal` is the evaluated value of the variable's defining right-hand
  -- side as the container would supply it (`none` when that evaluation
  -- fails), and `rhsCode` its rendering, both modelled from the spec
  unit : Option MUnit
  isState : Bool
  isBound : Bool
  isConstant : Bool
  stateValue : ℚ
  timeUnit : Option MUnit
  rhsVal : Option ℚ
  rhsCode : String
  deriving DecidableEq

/-- Payload of a `Name` node.  The constructor accepts any value; variables
are the intended case and plain strings are explicitly allowed for debugging
(`Name._code`: "Allow strings for debugging").  Python equality on payloads:
two variables are equal when they are the same object; two strings are equal
when their text is equal; a variable never equals a string. -/
inductive NameValue where
  | varh (h : VarH)
  | str (s : String)
  deriving DecidableEq

/-- Python `==` on `Name` payloads (used by `Name.__eq__`). -/
def nameValueEq (v w : NameValue) : Bool :=
  match v, w with
  | .varh h, .varh h2 => h.objId == h2.objId
  | .str s, .str s2 => s == s2
  | _, _ => false

/-- Second operand of a `PartialDerivative`: the constructor enforces that it
is a `Name` or an `InitialValue` (`PartialDerivative.__init__`). -/
inductive PdArg where
  | argName (v : NameValue)
  | argInit (v : NameValue)
  deriving DecidableEq

/-! ## Expression nodes

One constructor per concrete class of the source.  The embedding covers:
`Number`, `Name`, `Derivative`, `PartialDerivative`, `InitialValue`,
`PrefixPlus`, `PrefixMinus`, `Plus`, `Minus`, `Multiply`, `Divide`,
`Quotient`, `Remainder`, `Power`, `Log` (one-argument form), `Floor`,
`Less`, `If` and `Piecewise` (one condition-value pair plus default, the
smallest arity the source accepts).  Constructor-time integrity checks of
the source (`Derivative` wraps a `Name`; `PartialDerivative` takes a `Name`
and a `Name`-or-`InitialValue`; `InitialValue` wraps a `Name`) are enforced
by the types; where the differentiator calls a constructor that can fail
those checks, a `mk...` function models the check (see `mkFloorN`,
`mkPDerivOf`). -/
inductive Expr where
  | num (v : ℚ) (u : Option MUnit)
  | name (v : NameValue)
  | deriv (v : NameValue)
  | pderiv (v1 : NameValue) (v2 : PdArg)
  | initVal (v : NameValue)
  | prefPlus (x : Expr)
  | prefMinus (x : Expr)
  | plus (a b : Expr)
  | minus (a b : Expr)
  | multiply (a b : Expr)
  | divide (a b : Expr)
  | quotient (a b : Expr)
  | remainder (a b : Expr)
  | power (a b : Expr)
  | log (x : Expr)
  | floor (x : Expr)
  | less (a b : Expr)
  | ifE (c t e : Expr)
  | piecewise (c v d : Expr)
  deriving DecidableEq

/-- Kind tag of a node (`type(e)` in Python; one tag per concrete class). -/
inductive Kind where
  | kNum | kName | kDeriv | kPDeriv | kInitVal | kPrefPlus | kPrefMinus
  | kPlus | kMinus | kMultiply | kDivide | kQuotient | kRemainder | kPower
  | kLog | kFloor | kLess | kIf | kPiecewise
  deriving DecidableEq

/-- Kind of an expression. -/
def kindOf : Expr → Kind
  | .num _ _ => .kNum
  | .name _ => .kName
  | .deriv _ => .kDeriv
  | .pderiv _ _ => .kPDeriv
  | .initVal _ => .kInitVal
  | .prefPlus _ => .kPrefPlus
  | .prefMinus _ => .kPrefMinus
  | .plus _ _ => .kPlus
  | .minus _ _ => .kMinus
  | .multiply _ _ => .kMultiply
  | .divide _ _ => .kDivide
  | .quotient _ _ => .kQuotient
  | .remainder _ _ => .kRemainder
  | .power _ _ => .kPower
  | .log _ => .kLog
  | .floor _ => .kFloor
  | .less _ _ => .kLess
  | .ifE _ _ _ => .kIf
  | .piecewise _ _ _ => .kPiecewise

/-! ## Right-binding powers (precedence constants at the top of the file) -/

def LITERAL : Nat := 0
def CONDITION_AND : Nat := 10
def CONDITIONAL : Nat := 20
def SUM : Nat := 30
def PRODUCT : Nat := 40
def PREFIX : Nat := 50
def POWER : Nat := 60
def FUNCTION_CALL : Nat := 70

/-- Right-binding power `_rbp` of a node, as set per class in the source. -/
def rbp : Expr → Nat
  | .num _ _ => LITERAL
  | .name _ => LITERAL
  | .deriv _ => FUNCTION_CALL
  | .pderiv _ _ => FUNCTION_CALL
  | .initVal _ => FUNCTION_CALL
  | .prefPlus _ => PREFIX
  | .prefMinus _ => PREFIX
  | .plus _ _ => SUM
  | .minus _ _ => SUM
  | .multiply _ _ => PRODUCT
  | .divide _ _ => PRODUCT
  | .quotient _ _ => PRODUCT
  | .remainder _ _ => PRODUCT
  | .power _ _ => POWER
  | .log _ => FUNCTION_CALL
  | .floor _ => FUNCTION_CALL
  | .less _ _ => CONDITIONAL
  | .ifE _ _ _ => FUNCTION_CALL
  | .piecewise _ _ _ => FUNCTION_CALL

/-! ## Number rendering

`Number.__init__` builds the display string `_str` from
`myokit.strfloat(value)` and then strips suffixes.  `strfloat` is outside the
source file; modelled from the spec: numbers render with trailing-zero
stripping and exponent normalisation (`5.0` becomes `5`, `1e-05` becomes
`1e-5`, `1e+00` becomes `1`).  For integral values this yields the plain
integer numeral.  Non-integral values with a terminating decimal expansion
render as that expansion; other rationals (which no exact float produces on
the inputs of the claims) fall back to a numerator-slash-denominator form,
and exponent notation is not modelled. -/

/-- Decimal rendering of a non-integral rational whose denominator divides a
power of ten: scale, render, and insert the decimal point. -/
def decimalStr (v : ℚ) : String :=
  match (List.range 40).find? (fun k => (10 ^ k) % v.den == 0) with
  | some k =>
    let scaled : Int := v.num * ((10 ^ k) / v.den : Nat)
    let digits := natStr scaled.natAbs
    let digits := String.mk (List.replicate (k + 1 - digits.data.length) '0') ++ digits
    let whole := String.mk (digits.data.take (digits.data.length - k))
    let frac := String.mk (digits.data.drop (digits.data.length - k))
    (if v.num < 0 then "-" else "") ++ whole ++ "." ++ frac
  | none => intStr v.num ++ "/" ++ natStr v.den

/-- Display string of a number value after the suffix-stripping of
`Number.__init__` (integral floats lose their trailing `.0`). -/
def numValueStr (v : ℚ) : String :=
  if v.den = 1 then intStr v.num else decimalStr v

/-- The `_str` attribute of a `Number`: the normalised value string, plus a
space and the unit string when a unit is present and not dimensionless. -/
def numberStr (v : ℚ) (u : Option MUnit) : String :=
  numValueStr v ++
    (match u with
     | some uu => if uu = dimensionlessU then "" else " " ++ unitStr uu
     | none => "")

/-! ## Canonical reverse-Polish form (`_polish` / `_polishb`) -/

/-- Canonical form of a `Name` payload (`Name._polishb`): strings render as
`str:` plus the text; any other value renders as `var:` plus the decimal
numeral of its object id. -/
def polishName : NameValue → String
  | .str s => "str:" ++ s
  | .varh h => "var:" ++ natStr h.objId

/-- Canonical form of the second operand of a `PartialDerivative`
(a `Name` or an `InitialValue`; `InitialValue._polishb` writes `init ` and
then the wrapped name). -/
def polishArg : PdArg → String
  | .argName v => polishName v
  | .argInit v => "init " ++ polishName v

/-- Reverse-Polish canonical form (`Expression._polish`).  Notable details,
all from the source: `PrefixPlus` writes nothing of its own;
`PrefixMinus` writes `~ `; infix nodes write the operator, a space, and the
two operands separated by a space; functions write their name, the operand
count, and the operands, space-separated; `PartialDerivative._polishb`
writes its two operands with no separating byte between them. -/
def polish : Expr → String
  | .num v u => numberStr v u
  | .name v => polishName v
  | .deriv v => "dot " ++ polishName v
  | .pderiv v1 v2 => "partial " ++ polishName v1 ++ polishArg v2
  | .initVal v => "init " ++ polishName v
  | .prefPlus x => polish x
  | .prefMinus x => "~ " ++ polish x
  | .plus a b => "+ " ++ polish a ++ " " ++ polish b
  | .minus a b => "- " ++ polish a ++ " " ++ polish b
  | .multiply a b => "* " ++ polish a ++ " " ++ polish b
  | .divide a b => "/ " ++ polish a ++ " " ++ polish b
  | .quotient a b => "// " ++ polish a ++ " " ++ polish b
  | .remainder a b => "% " ++ polish a ++ " " ++ polish b
  | .power a b => "^ " ++ polish a ++ " " ++ polish b
  | .log x => "log 1 " ++ polish x
  | .floor x => "floor 1 " ++ polish x
  | .less a b => "< " ++ polish a ++ " " ++ polish b
  | .ifE c t e => "if 3 " ++ polish c ++ " " ++ polish t ++ " " ++ polish e
  | .piecewise c v d =>
    "piecewise 3 " ++ polish c ++ " " ++ polish v ++ " " ++ polish d

/-- Hash of an expression.  `Expression.__hash__` returns
`hash(self._polish())`, cached; Python's string hash is a fixed
deterministic function of the string, so every hash (in)equality the claims
mention factors through the canonical form, which we therefore use as the
hash value itself. -/
def exprHash (e : Expr) : String := polish e

/-- Python `==` on expressions.  `Expression.__eq__` compares the concrete
type and the canonical forms; `Name`, `Derivative`, `PartialDerivative` and
`InitialValue` override it with comparisons of their payloads. -/
def pyEq : Expr → Expr → Bool
  | .name v, f =>
    match f with
    | .name w => nameValueEq v w
    | _ => false
  | .deriv v, f =>
    match f with
    | .deriv w => nameValueEq v w
    | _ => false
  | .pderiv v1 v2, f =>
    match f with
    | .pderiv w1 w2 =>
      nameValueEq v1 w1 &&
        (match v2, w2 with
         | .argName x, .argName y => nameValueEq x y
         | .argInit x, .argInit y => nameValueEq x y
         | _, _ => false)
    | _ => false
  | .initVal v, f =>
    match f with
    | .initVal w => nameValueEq v w
    | _ => false
  | e, f => kindOf e == kindOf f && polish e == polish f

/-! ## Rendering in mmt syntax (`code` / `_code`, with no context component) -/

/-- Rendering of a `Name` payload with no context component (`Name._code`
with `c = None`): a linked variable renders as its qualified name, a
debugging string as `str:` plus the text.  Whether the variable is nested
(in which case the short name is used) is folded into the `qname` field of
the handle, as the distinction is the container's. -/
def codeName : NameValue → String
  | .varh h => h.qname
  | .str s => "str:" ++ s

/-- Rendering an operand of a prefix node (`PrefixExpression._code`):
parenthesise when `LITERAL < rbp(op) < rbp(self)`. -/
def codeWrapPrefix (inner : String) (innerRbp : Nat) : String :=
  if LITERAL < innerRbp ∧ innerRbp < PREFIX then "(" ++ inner ++ ")" else inner

/-- Rendering in `mmt` syntax (`Expression.code` with no component).  Infix
nodes parenthesise the left operand iff `LITERAL < rbp(left) < rbp(self)`
and the right operand iff `LITERAL < rbp(right) <= rbp(self)`
(`InfixExpression._code`); functions and conditionals render as
`name(arg, ...)`; `PartialDerivative._code` writes its two operands with no
separator between them. -/
def code : Expr → String
  | .num v u => numberStr v u
  | .name v => codeName v
  | .deriv v => "dot(" ++ codeName v ++ ")"
  | .pderiv v1 v2 =>
    "partial(" ++ codeName v1 ++
      (match v2 with
       | .argName w => codeName w
       | .argInit w => "init(" ++ codeName w ++ ")") ++ ")"
  | .initVal v => "init(" ++ codeName v ++ ")"
  | .prefPlus x => "+" ++ codeWrapPrefix (code x) (rbp x)
  | .prefMinus x => "-" ++ codeWrapPrefix (code x) (rbp x)
  | .plus a b => codeInfix (code a) (rbp a) "+" (code b) (rbp b) SUM
  | .minus a b => codeInfix (code a) (rbp a) "-" (code b) (rbp b) SUM
  | .multiply a b => codeInfix (code a) (rbp a) "*" (code b) (rbp b) PRODUCT
  | .divide a b => codeInfix (code a) (rbp a) "/" (code b) (rbp b) PRODUCT
  | .quotient a b => codeInfix (code a) (rbp a) "//" (code b) (rbp b) PRODUCT
  | .remainder a b => codeInfix (code a) (rbp a) "%" (code b) (rbp b) PRODUCT
  | .power a b => codeInfix (code a) (rbp a) "^" (code b) (rbp b) POWER
  | .log x => "log(" ++ code x ++ ")"
  | .floor x => "floor(" ++ code x ++ ")"
  | .less a b => codeInfix (code a) (rbp a) "<" (code b) (rbp b) CONDITIONAL
  | .ifE c t e =>
    "if(" ++ code c ++ ", " ++ code t ++ ", " ++ code e ++ ")"
  | .piecewise c v d =>
    "piecewise(" ++ code c ++ ", " ++ code v ++ ", " ++ code d ++ ")"
where
  /-- The body of `InfixExpression._code`: both operands rendered with the
  bracketing rule, the left with a strict and the right with a non-strict
  comparison against the node's own binding power. -/
  codeInfix (ca : String) (ra : Nat) (rep : String)
      (cb : String) (rb2 : Nat) (self : Nat) : String :=
    (if LITERAL < ra ∧ ra < self then "(" ++ ca ++ ")" else ca)
      ++ " " ++ rep ++ " " ++
      (if LITERAL < rb2 ∧ rb2 ≤ self then "(" ++ cb ++ ")" else cb)

/-! ## Cloning (`clone` with no substitution, no expansion, no retain set)

Each class rebuilds itself from the clones of its operands; `Number` and the
leaf classes rebuild from their payloads.  The `subst` lookup at the top of
every `clone` is skipped because the dictionary is absent, and `Name.clone`
returns `Name(self._value)` because `expand` is false. -/
def clone : Expr → Expr
  | .num v u => .num v u
  | .name v => .name v
  | .deriv v => .deriv v
  | .pderiv v1 v2 => .pderiv v1 v2
  | .initVal v => .initVal v
  | .prefPlus x => .prefPlus (clone x)
  | .prefMinus x => .prefMinus (clone x)
  | .plus a b => .plus (clone a) (clone b)
  | .minus a b => .minus (clone a) (clone b)
  | .multiply a b => .multiply (clone a) (clone b)
  | .divide a b => .divide (clone a) (clone b)
  | .quotient a b => .quotient (clone a) (clone b)
  | .remainder a b => .remainder (clone a) (clone b)
  | .power a b => .power (clone a) (clone b)
  | .log x => .log (clone x)
  | .floor x => .floor (clone x)
  | .less a b => .less (clone a) (clone b)
  | .ifE c t e => .ifE (clone c) (clone t) (clone e)
  | .piecewise c v d => .piecewise (clone c) (clone v) (clone d)

/-! ## The `_has_partials` / `_has_initials` flags and `contains_type`

`Expression.__init__` folds the flags of the stored operands;
`PartialDerivative.__init__` then sets `_has_partials`, and
`InitialValue.__init__` sets `_has_initials`.  `InitialValue.__init__`
passes `(var)` instead of `(var,)` to the parent constructor, so its operand
fold iterates over the wrapped name's (empty) operand tuple; the wrapped
name carries no flags, so the resulting flag values coincide with the
intended ones. -/

/-- The `_has_partials` flag as propagated at construction. -/
def hasPartials : Expr → Bool
  | .num _ _ => false
  | .name _ => false
  | .deriv _ => false
  | .pderiv _ _ => true
  | .initVal _ => false
  | .prefPlus x => hasPartials x
  | .prefMinus x => hasPartials x
  | .plus a b => hasPartials a || hasPartials b
  | .minus a b => hasPartials a || hasPartials b
  | .multiply a b => hasPartials a || hasPartials b
  | .divide a b => hasPartials a || hasPartials b
  | .quotient a b => hasPartials a || hasPartials b
  | .remainder a b => hasPartials a || hasPartials b
  | .power a b => hasPartials a || hasPartials b
  | .log x => hasPartials x
  | .floor x => hasPartials x
  | .less a b => hasPartials a || hasPartials b
  | .ifE c t e => hasPartials c || hasPartials t || hasPartials e
  | .piecewise c v d => hasPartials c || hasPartials v || hasPartials d

/-- The `_has_initials` flag as propagated at construction.  For a
`PartialDerivative` the fold over the operand pair sees the flag of the
second operand, which is set exactly when that operand is an
`InitialValue`. -/
def hasInitials : Expr → Bool
  | .num _ _ => false
  | .name _ => false
  | .deriv _ => false
  | .pderiv _ v2 => (match v2 with | .argInit _ => true | .argName _ => false)
  | .initVal _ => true
  | .prefPlus x => hasInitials x
  | .prefMinus x => hasInitials x
  | .plus a b => hasInitials a || hasInitials b
  | .minus a b => hasInitials a || hasInitials b
  | .multiply a b => hasInitials a || hasInitials b
  | .divide a b => hasInitials a || hasInitials b
  | .quotient a b => hasInitials a || hasInitials b
  | .power a b => hasInitials a || hasInitials b
  | .remainder a b => hasInitials a || hasInitials b
  | .log x => hasInitials x
  | .floor x => hasInitials x
  | .less a b => hasInitials a || hasInitials b
  | .ifE c t e => hasInitials c || hasInitials t || hasInitials e
  | .piecewise c v d => hasInitials c || hasInitials v || hasInitials d

/-- The answer of `contains_type(e, PartialDerivative)`: the `isinstance`
check on the node itself, then the `_has_partials` shortcut. -/
def containsTypePDeriv (e : Expr) : Bool :=
  (match e with | .pderiv _ _ => true | _ => false) || hasPartials e

/-- The answer of `contains_type(e, InitialValue)`: the `isinstance` check
on the node itself, then the `_has_initials` shortcut. -/
def containsTypeInitVal (e : Expr) : Bool :=
  (match e with | .initVal _ => true | _ => false) || hasInitials e

/-- Specification-side recursive depth-first search for a
`PartialDerivative` node: true iff such a node occurs in the tree rooted at
`e` (the root included, wrapped names of the leaf classes included). -/
def occursPDeriv : Expr → Bool
  | .num _ _ => false
  | .name _ => false
  | .deriv _ => false
  | .pderiv _ _ => true
  | .initVal _ => false
  | .prefPlus x => occursPDeriv x
  | .prefMinus x => occursPDeriv x
  | .plus a b => occursPDeriv a || occursPDeriv b
  | .minus a b => occursPDeriv a || occursPDeriv b
  | .multiply a b => occursPDeriv a || occursPDeriv b
  | .divide a b => occursPDeriv a || occursPDeriv b
  | .quotient a b => occursPDeriv a || occursPDeriv b
  | .remainder a b => occursPDeriv a || occursPDeriv b
  | .power a b => occursPDeriv a || occursPDeriv b
  | .log x => occursPDeriv x
  | .floor x => occursPDeriv x
  | .less a b => occursPDeriv a || occursPDeriv b
  | .ifE c t e => occursPDeriv c || occursPDeriv t || occursPDeriv e
  | .piecewise c v d => occursPDeriv c || occursPDeriv v || occursPDeriv d

/-- Specification-side recursive depth-first search for an `InitialValue`
node, the root and the second operands of `PartialDerivative` included. -/
def occursInitVal : Expr → Bool
  | .num _ _ => false
  | .name _ => false
  | .deriv _ => false
  | .pderiv _ v2 => (match v2 with | .argInit _ => true | .argName _ => false)
  | .initVal _ => true
  | .prefPlus x => occursInitVal x
  | .prefMinus x => occursInitVal x
  | .plus a b => occursInitVal a || occursInitVal b
  | .minus a b => occursInitVal a || occursInitVal b
  | .multiply a b => occursInitVal a || occursInitVal b
  | .divide a b => occursInitVal a || occursInitVal b
  | .quotient a b => occursInitVal a || occursInitVal b
  | .remainder a b => occursInitVal a || occursInitVal b
  | .power a b => occursInitVal a || occursInitVal b
  | .log x => occursInitVal x
  | .floor x => occursInitVal x
  | .less a b => occursInitVal a || occursInitVal b
  | .ifE c t e => occursInitVal c || occursInitVal t || occursInitVal e
  | .piecewise c v d => occursInitVal c || occursInitVal v || occursInitVal d

/-! ## Numerical evaluation (`eval` / `_eval`)

Evaluation is modelled in double precision over exact rationals, with
Python booleans kept separate because comparisons return them and `str()`
renders them differently.  The substitution dictionary is absent (the claims
fix `subst=None`) and so its lookups are skipped.  Results a float cannot
represent exactly never arise in the claims; where the model cannot produce
the float result (transcendentals, fractional powers) evaluation is marked
`notModelled`, documented case by case. -/

/-- Python value produced by `_eval`: a float or a bool. -/
inductive PyVal where
  | num (v : ℚ)
  | bool (b : Bool)
  deriving DecidableEq

/-- Numeric coercion of a Python value (`True == 1.0`; arithmetic and
truthiness treat booleans as numbers). -/
def toQ : PyVal → ℚ
  | .num v => v
  | .bool b => if b then 1 else 0

/-- Python rendering `str(value)`.  An integral float renders with a
trailing `.0`; booleans render as `True` / `False`.  (Exponent notation for
very large or small magnitudes is not modelled; see `decimalStr`.) -/
def pyStr : PyVal → String
  | .num v => if v.den = 1 then intStr v.num ++ ".0" else decimalStr v
  | .bool b => if b then "True" else "False"

/-- Errors of the internal evaluator.  `evalError` is myokit's internal
`EvalError` (offending sub-expression plus the text of the wrapped
exception); `attrError` is a raw `AttributeError`, which no evaluation
handler catches; `external` marks an outcome that depends on the model
container, which is outside the source file; `notModelled` marks a
float-only result the rational model cannot produce. -/
inductive EvalE where
  | evalError (expr : Expr) (msg : String)
  | attrError (msg : String)
  | external (msg : String)
  | notModelled (msg : String)
  deriving DecidableEq

/-- Internal evaluator (`Expression._eval` with `subst=None`, double
precision).  Operand order and error points follow the source: `Divide`
evaluates its denominator first and raises a bare `ZeroDivisionError` (whose
`str()` is empty) when it is zero; `Quotient` and `Remainder` use Python's
float floor-division and modulo, which raise on a zero divisor; `If` and
`Piecewise` evaluate only the selected branch; `Name` of a state variable
evaluates to the state value, while other variables defer to the container
(`rhsVal`, modelled from the spec); `Name` of a debugging string, and
`PartialDerivative` / `InitialValue` (whose `rhs()` is `None`), raise
`AttributeError` inside `LhsExpression._eval`. -/
def evalI : Expr → Except EvalE PyVal
  | .num v _ => .ok (.num v)
  | .name (.varh h) =>
    if h.isState then .ok (.num h.stateValue)
    else
      (match h.rhsVal with
       | some v => .ok (.num v)
       | none => .error (.external "variable rhs not evaluable"))
  | .name (.str _) => .error (.attrError "str object has no attribute is_state")
  | .deriv (.varh h) =>
    (match h.rhsVal with
     | some v => .ok (.num v)
     | none => .error (.external "variable rhs not evaluable"))
  | .deriv (.str _) => .error (.attrError "str object has no attribute rhs")
  | .pderiv _ _ => .error (.attrError "NoneType object has no attribute eval")
  | .initVal _ => .error (.attrError "NoneType object has no attribute eval")
  | .prefPlus x => evalI x
  | .prefMinus x => do
    let v ← evalI x
    pure (.num (-(toQ v)))
  | .plus a b => do
    let va ← evalI a
    let vb ← evalI b
    pure (.num (toQ va + toQ vb))
  | .minus a b => do
    let va ← evalI a
    let vb ← evalI b
    pure (.num (toQ va - toQ vb))
  | .multiply a b => do
    let va ← evalI a
    let vb ← evalI b
    pure (.num (toQ va * toQ vb))
  | .divide a b => do
    let vb ← evalI b
    if toQ vb = 0 then .error (.evalError (.divide a b) "")
    else do
      let va ← evalI a
      pure (.num (toQ va / toQ vb))
  | .quotient a b => do
    let va ← evalI a
    let vb ← evalI b
    if toQ vb = 0 then
      .error (.evalError (.quotient a b) "float floor division by zero")
    else pure (.num (⌊toQ va / toQ vb⌋ : ℚ))
  | .remainder a b => do
    let va ← evalI a
    let vb ← evalI b
    if toQ vb = 0 then .error (.evalError (.remainder a b) "float modulo")
    else pure (.num (toQ va - toQ vb * (⌊toQ va / toQ vb⌋ : ℚ)))
  | .power a b => do
    let va ← evalI a
    let vb ← evalI b
    let qa := toQ va
    let qb := toQ vb
    if qb.den = 1 then
      if qa = 0 ∧ qb.num < 0 then
        .error (.evalError (.power a b)
          "0.0 cannot be raised to a negative power")
      else pure (.num (qa ^ qb.num))
    else .error (.notModelled "fractional power")
  | .log x => do
    let _ ← evalI x
    .error (.notModelled "transcendental logarithm")
  | .floor x => do
    let v ← evalI x
    pure (.num (⌊toQ v⌋ : ℚ))
  | .less a b => do
    let va ← evalI a
    let vb ← evalI b
    pure (.bool (decide (toQ va < toQ vb)))
  | .ifE c t e => do
    let vc ← evalI c
    if toQ vc ≠ 0 then evalI t else evalI e
  | .piecewise c v d => do
    let vc ← evalI c
    if toQ vc ≠ 0 then evalI v else evalI d

/-- The set of references of an expression (`Expression._references`): the
`LhsExpression` leaves it contains, each of which contributes itself.  The
source keeps a Python set; the embedding keeps a list, which coincides with
the set on the property the theorems use (emptiness). -/
def refs : Expr → List Expr
  | .num _ _ => []
  | .name v => [.name v]
  | .deriv v => [.deriv v]
  | .pderiv v1 v2 => [.pderiv v1 v2]
  | .initVal v => [.initVal v]
  | .prefPlus x => refs x
  | .prefMinus x => refs x
  | .plus a b => refs a ++ refs b
  | .minus a b => refs a ++ refs b
  | .multiply a b => refs a ++ refs b
  | .divide a b => refs a ++ refs b
  | .quotient a b => refs a ++ refs b
  | .remainder a b => refs a ++ refs b
  | .power a b => refs a ++ refs b
  | .log x => refs x
  | .floor x => refs x
  | .less a b => refs a ++ refs b
  | .ifE c t e => refs c ++ refs t ++ refs e
  | .piecewise c v d => refs c ++ refs v ++ refs d

/-- Whether an expression is a literal (`is_literal`: no references). -/
def isLiteralE (e : Expr) : Bool := (refs e).isEmpty

/-- The expression form of a `PartialDerivative` second operand. -/
def pdArgExpr : PdArg → Expr
  | .argName v => .name v
  | .argInit v => .initVal v

/-- Stored operand tuple of a node as iteration sees it
(`Expression.__iter__` over `_operands`).  `InitialValue.__init__` passes
`(var)` instead of `(var,)` to the parent constructor, so its "operands" are
the wrapped name object and iterating it yields that name's own (empty)
operands: the list is empty. -/
def operandsOf : Expr → List Expr
  | .num _ _ => []
  | .name _ => []
  | .deriv v => [.name v]
  | .pderiv v1 v2 => [.name v1, pdArgExpr v2]
  | .initVal _ => []
  | .prefPlus x => [x]
  | .prefMinus x => [x]
  | .plus a b => [a, b]
  | .minus a b => [a, b]
  | .multiply a b => [a, b]
  | .divide a b => [a, b]
  | .quotient a b => [a, b]
  | .remainder a b => [a, b]
  | .power a b => [a, b]
  | .log x => [x]
  | .floor x => [x]
  | .less a b => [a, b]
  | .ifE c t e => [c, t, e]
  | .piecewise c v d => [c, v, d]

/-! ## Diagnostic message construction (`Expression.eval` and
`_expr_error_message`) -/

/-- Whether `pat` is an initial segment of `l`. -/
def leadEq : List Char → List Char → Bool
  | [], _ => true
  | _ :: _, [] => false
  | a :: as, b :: bs => a == b && leadEq as bs

/-- Leftmost occurrence index of `needle` in `hay` (`str.find`, returning
`none` for Python's `-1`). -/
def listFind (needle : List Char) : List Char → Nat → Option Nat
  | l, i =>
    if leadEq needle l then some i
    else
      match l with
      | [] => none
      | _ :: t => listFind needle t (i + 1)

/-- String version of `listFind`. -/
def strFind (hay needle : String) : Option Nat := listFind needle.data hay.data 0

/-- Python `'\n'.join`. -/
def joinNL : List String → String
  | [] => ""
  | [s] => s
  | s :: rest => s ++ "\n" ++ joinNL rest

/-- First-result choice used while walking children (`if r is not None:
return r`). -/
def orP (a : Option (List Expr)) (b : Unit -> Option (List Expr)) :
    Option (List Expr) :=
  match a with
  | some r => some r
  | none => b ()

/-- Trail of `Name` nodes leading from `root` to the node `target` inside it
(the helper `path` of `_expr_error_message`).  The trail grows only when the
walk enters a variable's defining right-hand side through `Name.rhs()`; that
expression lives in the external model container, so in the embedding a
`Name` that is not itself the target ends the search (and the produced trail
is always empty).  The leaf classes' stored operands are walked as the
source iterates them: a `Derivative` yields its wrapped name, a
`PartialDerivative` yields its two operands, an `InitialValue` yields
nothing (see `operandsOf`). -/
def pathE (target root : Expr) : Option (List Expr) :=
  if pyEq root target then some []
  else
    match root with
    | .num _ _ => none
    | .name _ => none
    | .deriv v => if pyEq (.name v) target then some [] else none
    | .pderiv v1 v2 =>
      if pyEq (.name v1) target then some []
      else if pyEq (pdArgExpr v2) target then some []
      else none
    | .initVal _ => none
    | .prefPlus x => pathE target x
    | .prefMinus x => pathE target x
    | .plus a b => orP (pathE target a) (fun _ => pathE target b)
    | .minus a b => orP (pathE target a) (fun _ => pathE target b)
    | .multiply a b => orP (pathE target a) (fun _ => pathE target b)
    | .divide a b => orP (pathE target a) (fun _ => pathE target b)
    | .quotient a b => orP (pathE target a) (fun _ => pathE target b)
    | .remainder a b => orP (pathE target a) (fun _ => pathE target b)
    | .power a b => orP (pathE target a) (fun _ => pathE target b)
    | .log x => pathE target x
    | .floor x => pathE target x
    | .less a b => orP (pathE target a) (fun _ => pathE target b)
    | .ifE c t e =>
      orP (orP (pathE target c) (fun _ => pathE target t))
        (fun _ => pathE target e)
    | .piecewise c v d =>
      orP (orP (pathE target c) (fun _ => pathE target v))
        (fun _ => pathE target d)

/-- Indented entries of the located-at section: entry `i` of the trail is
rendered as `str(var)` behind `2 * (1 + i)` spaces. -/
def locatedEntries (i : Nat) : List Expr → List String
  | [] => []
  | x :: rest =>
    (String.mk (List.replicate (2 * (1 + i)) ' ') ++ code x)
      :: locatedEntries (i + 1) rest

/-- Rendering of the defining equation of the last trail entry, used to
rebind `par_str` when the trail is non-empty: the name, ` = `, and the code
of the variable's right-hand side (which lives in the container and is
modelled through `rhsCode`). -/
def lastTrailLine (x : Expr) (rest : List Expr) : String :=
  let last := rest.getLast?.getD x
  code last ++ " = " ++
    (match last with
     | .name (.varh h) => h.rhsCode
     | _ => "")

/-- The string built by `_expr_error_message(owner, e)` for an `EvalError`:
the wrapped exception text, the line `Encountered when evaluating`, the
owner's code indented by two spaces, the located-at section when the trail
of names is non-empty (it never is in the embedding, see `pathE`, so
`par_str` is never rebound), and a tilde underline at the position where the
offending sub-expression's code occurs in the rendered line. -/
def exprErrorMessage (owner errExpr : Expr) (errMsg : String) : String :=
  let parStr := "  " ++ code owner
  let errStr := code errExpr
  let (located, parStr2) : List String × String :=
    match pathE errExpr owner with
    | some (x :: xs) =>
      let p2 := lastTrailLine x xs
      ("Error located at:" :: locatedEntries 0 (x :: xs) ++ [p2], p2)
    | _ => ([], parStr)
  let start := strFind parStr2 errStr
  joinNL ([errMsg, "Encountered when evaluating", parStr] ++ located ++
    (match start with
     | some s =>
       [String.mk (List.replicate s ' ' ++ List.replicate errStr.data.length '~')]
     | none => []))

/-- Value lines of the operand section: each operand of the offending
sub-expression re-evaluated in isolation, an `EvalError` suppressed to the
placeholder `another error`; any other exception propagates out of `eval`
unhandled. -/
def opLinesAux (i : Nat) : List Expr → Except EvalE (List String)
  | [] => .ok []
  | op :: rest => do
    let line ←
      (match evalI op with
       | .ok v => Except.ok ("  (" ++ natStr i ++ ") " ++ pyStr v)
       | .error (.evalError _ _) =>
         Except.ok ("  (" ++ natStr i ++ ") " ++ "another error")
       | .error e => Except.error e)
    let rest2 ← opLinesAux (i + 1) rest
    pure (line :: rest2)

/-- Lines of the referenced-variables section for one reference.  A state
variable's right-hand side is `Number(state_value)`, shown on the same
line; another linked variable's right-hand side lives in the container
(rendering and value modelled from the spec through `rhsCode` / `rhsVal`,
a failing evaluation shown as the placeholder); `PartialDerivative` and
`InitialValue` references have `rhs() = None`, on which the code of the
source raises `AttributeError`. -/
def refLines : List Expr → Except EvalE (List String)
  | [] => .ok []
  | ref :: rest => do
    let lines ←
      (match ref with
       | .name (.varh h) =>
         if h.isState then
           Except.ok ["  " ++ code ref ++ " = "
             ++ pyStr (.num h.stateValue)]
         else
           Except.ok ["  " ++ code ref ++ " = " ++ h.rhsCode,
             "  " ++ String.mk (List.replicate (code ref).data.length ' ')
               ++ " = "
               ++ (match h.rhsVal with
                   | some v => pyStr (.num v)
                   | none => "another error")]
       | .deriv (.varh h) =>
         Except.ok ["  " ++ code ref ++ " = " ++ h.rhsCode,
           "  " ++ String.mk (List.replicate (code ref).data.length ' ')
             ++ " = "
             ++ (match h.rhsVal with
                 | some v => pyStr (.num v)
                 | none => "another error")]
       | .name (.str _) =>
         Except.error (.attrError "str object has no attribute is_state")
       | .deriv (.str _) =>
         Except.error (.attrError "str object has no attribute rhs")
       | _ => Except.error (.attrError "NoneType object has no attribute code"))
    let rest2 ← refLines rest
    pure (lines ++ rest2)

/-- The full `NumericalError` message assembled by `Expression.eval` when
the internal evaluation raises an `EvalError`: the traced error message,
then the operand-value section, then the referenced-variable section.
Non-`EvalError` exceptions raised while re-evaluating operands or
references propagate (`Except.error`). -/
def numericalMessage (owner errExpr : Expr) (errMsg : String) :
    Except EvalE String := do
  let inner := exprErrorMessage owner errExpr errMsg
  let ops := operandsOf errExpr
  let opsPart ←
    (if ops.isEmpty then pure []
     else do
       let ls ← opLinesAux 1 ops
       pure ("With the following operands:" :: ls))
  let rs := refs errExpr
  let refsPart ←
    (if rs.isEmpty then pure []
     else do
       let ls ← refLines rs
       pure ("And the following variables:" :: ls))
  pure (joinNL ([inner] ++ opsPart ++ refsPart))

/-- Outcome of the public `eval()`: a value, a `myokit.NumericalError`
carrying the diagnostic message, or an exception that escapes `eval`
because only `EvalError` is caught. -/
inductive PubErr where
  | numerical (msg : String)
  | uncaught (e : EvalE)
  deriving DecidableEq

/-- Public `eval()` with no substitutions: runs the internal evaluator,
catches its `EvalError`, and re-raises it as a `NumericalError` with the
assembled diagnostic message.  Every other exception escapes as itself. -/
def pubEval (e : Expr) : Except PubErr PyVal :=
  match evalI e with
  | .ok v => .ok v
  | .error (.evalError ex m) =>
    (match numericalMessage e ex m with
     | .ok s => .error (.numerical s)
     | .error e2 => .error (.uncaught e2))
  | .error other => .error (.uncaught other)

/-! ## Unit evaluation (`eval_unit` / `_eval_unit`) -/

/-- Unit-evaluation mode (`myokit.UNIT_TOLERANT` / `myokit.UNIT_STRICT`). -/
inductive UMode where
  | tolerant
  | strict
  deriving DecidableEq

/-- Errors of the internal unit evaluator `_eval_unit`.  `evalUnitError` is
the internal exception the caching wrapper catches and converts; the
`raised` variants are exceptions that escape it: a `NumericalError` or an
uncaught evaluation exception out of the `op2.eval()` call of
`Power._eval_unit`, and an `AttributeError` from `Derivative._eval_unit` on
a debugging-string name. -/
inductive UnitE where
  | evalUnitError (expr : Expr) (msg : String)
  | raisedNumerical (msg : String)
  | raisedEval (e : EvalE)
  | raisedAttr (msg : String)
  deriving DecidableEq

/-- Declared unit of a variable per mode (`Variable.unit(mode)`, modelled
from the spec contract: the declared unit, with `None` in tolerant mode and
`dimensionless` in strict mode when undeclared). -/
def varUnit (h : VarH) (m : UMode) : Option MUnit :=
  match h.unit with
  | some u => some u
  | none => match m with | .strict => some dimensionlessU | .tolerant => none

/-- Unit of a `Name` payload (`Name._eval_unit`): a linked variable defers
to the container; an unlinked (string) value falls through to
`dimensionless` in strict mode and `None` in tolerant mode. -/
def nameUnit (v : NameValue) (m : UMode) : Option MUnit :=
  match v with
  | .varh h => varUnit h m
  | .str _ => match m with | .strict => some dimensionlessU | .tolerant => none

/-- Division of optional units with the None-propagation of the source
(`unit2` absent: keep `unit1`; `unit1` absent: reciprocal; both present:
quotient), shared by `Derivative`, `PartialDerivative`, `Divide` and
`Quotient`. -/
def divOptU (u1 u2 : Option MUnit) : Option MUnit :=
  match u2 with
  | none => u1
  | some b => match u1 with | none => some (invU b) | some a => some (divU a b)

/-- Time unit seen by `Derivative._eval_unit`: the enclosing model's
declared time unit when present (modelled from the spec through
`VarH.timeUnit`), else `dimensionless` in strict mode and `None` in
tolerant mode (which also covers a variable without a model). -/
def timeUnitOf (h : VarH) (m : UMode) : Option MUnit :=
  match h.timeUnit with
  | some u => some u
  | none => match m with | .strict => some dimensionlessU | .tolerant => none

/-- Internal unit evaluator (`_eval_unit` per class).  All branches are
walked even when evaluation would not need them; errors propagate in the
order the source computes the operands. -/
def evalUnitI : Expr → UMode → Except UnitE (Option MUnit)
  | .num _ u, m =>
    .ok (match u with
         | some uu => some uu
         | none => match m with | .strict => some dimensionlessU | .tolerant => none)
  | .name v, m => .ok (nameUnit v m)
  | .deriv (.str _), _ => .error (.raisedAttr "str object has no attribute model")
  | .deriv (.varh h), m => .ok (divOptU (varUnit h m) (timeUnitOf h m))
  | .pderiv v1 v2, m =>
    .ok (divOptU (nameUnit v1 m)
      (match v2 with | .argName w => nameUnit w m | .argInit w => nameUnit w m))
  | .initVal v, m => .ok (nameUnit v m)
  | .prefPlus x, m => evalUnitI x m
  | .prefMinus x, m => evalUnitI x m
  | .plus a b, m => do
    let u1 ← evalUnitI a m
    let u2 ← evalUnitI b m
    if u1 = u2 then pure u1
    else
      match u1, u2 with
      | none, _ => pure u2
      | _, none => pure u1
      | _, _ => .error (.evalUnitError (.plus a b) "Addition requires equal units")
  | .minus a b, m => do
    let u1 ← evalUnitI a m
    let u2 ← evalUnitI b m
    if u1 = u2 then pure u1
    else
      match u1, u2 with
      | none, _ => pure u2
      | _, none => pure u1
      | _, _ =>
        .error (.evalUnitError (.minus a b) "Subtraction requires equal units")
  | .multiply a b, m => do
    let u1 ← evalUnitI a m
    let u2 ← evalUnitI b m
    match u1, u2 with
    | none, _ => pure u2
    | _, none => pure u1
    | some x, some y => pure (some (mulU x y))
  | .divide a b, m => do
    let u1 ← evalUnitI a m
    let u2 ← evalUnitI b m
    pure (divOptU u1 u2)
  | .quotient a b, m => do
    let u1 ← evalUnitI a m
    let u2 ← evalUnitI b m
    pure (divOptU u1 u2)
  | .remainder a b, m => do
    let u1 ← evalUnitI a m
    let _ ← evalUnitI b m
    pure u1
  | .power a b, m => do
    let u1 ← evalUnitI a m
    let u2 ← evalUnitI b m
    if u2 ≠ some dimensionlessU ∧ m = .strict then
      .error (.evalUnitError (.power a b) "Exponent in Power must be dimensionless")
    else
      match u1 with
      | none => pure none
      | some x =>
        match pubEval b with
        | .ok v => pure (some (powU x (toQ v)))
        | .error (.numerical msg) => .error (.raisedNumerical msg)
        | .error (.uncaught e) => .error (.raisedEval e)
  | .log x, m => do
    let u ← evalUnitI x m
    match u with
    | none => pure none
    | some uu =>
      if m = .strict ∧ uu ≠ dimensionlessU then
        .error (.evalUnitError (.log x) "Log() requires a dimensionless operand")
      else pure (some dimensionlessU)
  | .floor x, m => evalUnitI x m
  | .less a b, m => do
    let u1 ← evalUnitI a m
    let u2 ← evalUnitI b m
    if u1 = u2 then
      pure (match u1 with | none => none | some _ => some dimensionlessU)
    else if u1 = none ∨ u2 = none then pure (some dimensionlessU)
    else
      .error (.evalUnitError (.less a b)
        "Condition requires equal units on both sides")
  | .ifE c t e, m => do
    let _ ← evalUnitI c m
    let u2 ← evalUnitI t m
    let u3 ← evalUnitI e m
    if u2 = u3 then pure u2
    else
      match u2, u3 with
      | none, _ => pure u3
      | _, none => pure u2
      | _, _ =>
        .error (.evalUnitError (.ifE c t e)
          "Units of then and else part of an if must match")
  | .piecewise c v d, m => do
    let _ ← evalUnitI c m
    let u1 ← evalUnitI v m
    let u2 ← evalUnitI d m
    if u1 = u2 then pure u1
    else
      match u1, u2 with
      | none, _ => pure u2
      | _, none => pure u1
      | _, _ =>
        .error (.evalUnitError (.piecewise c v d)
          "All branches of a piecewise() must have the same unit.")

/-- Message of `_expr_error_message` for an `EvalUnitError`: the first line
is `Incompatible units` (no token line information exists in the embedding)
followed by the wrapped message; the rest is shared with the `EvalError`
case. -/
def exprErrorMessageU (owner errExpr : Expr) (errMsg : String) : String :=
  exprErrorMessage owner errExpr ("Incompatible units: " ++ errMsg)

/-- Value of one of the four cache attributes of a node: Python `None`
(also the initial value), a cached `Unit`, or a cached
`IncompatibleUnitError` carrying its message. -/
inductive USlot where
  | pynone
  | uok (u : MUnit)
  | uerr (msg : String)
  deriving DecidableEq

/-- The four lazily populated per-node cache attributes involved in
`eval_unit`: the two `_cached_unit_*` slots initialised by
`Expression.__init__`, and the two `_unit_*` attributes that the body of
`eval_unit` assigns. -/
structure UnitCache where
  cachedUnitTolerant : USlot
  cachedUnitStrict : USlot
  unitTolerant : USlot
  unitStrict : USlot
  deriving DecidableEq

/-- Cache state of a freshly constructed node (all attributes that exist
are `None`; the `_unit_*` pair does not exist yet, which `None` also
models, as reading them is never attempted). -/
def initCache : UnitCache := ⟨.pynone, .pynone, .pynone, .pynone⟩

/-- Outcome of the public `eval_unit`: a unit (or `None` in tolerant mode),
a raised `IncompatibleUnitError`, or an exception type the method does not
catch. -/
inductive UnitPubErr where
  | incompatible (msg : String)
  | raisedNumerical (msg : String)
  | raisedEval (e : EvalE)
  | raisedAttr (msg : String)
  deriving DecidableEq

/-- The public `eval_unit(mode)` of the source, acting on one node's cache
attributes: read `self._cached_unit_strict` or `self._cached_unit_tolerant`;
when it is `None`, run `_eval_unit`, converting an `EvalUnitError` into an
`IncompatibleUnitError`, and assign the result — to `self._unit_strict` or
`self._unit_tolerant`, which are different attributes from the ones read;
finally raise the result if it is an error and return it otherwise.
Exceptions other than `EvalUnitError` propagate before any assignment. -/
def evalUnitCached (e : Expr) (m : UMode) (st : UnitCache) :
    Except UnitPubErr (Option MUnit) × UnitCache :=
  let slot := match m with
    | .strict => st.cachedUnitStrict
    | .tolerant => st.cachedUnitTolerant
  match slot with
  | .uok u => (.ok (some u), st)
  | .uerr msg => (.error (.incompatible msg), st)
  | .pynone =>
    match evalUnitI e m with
    | .ok u =>
      let stored : USlot := match u with | some uu => .uok uu | none => .pynone
      let st2 := match m with
        | .strict => { st with unitStrict := stored }
        | .tolerant => { st with unitTolerant := stored }
      (.ok u, st2)
    | .error (.evalUnitError ex msg) =>
      let m2 := exprErrorMessageU e ex msg
      let st2 := match m with
        | .strict => { st with unitStrict := .uerr m2 }
        | .tolerant => { st with unitTolerant := .uerr m2 }
      (.error (.incompatible m2), st2)
    | .error (.raisedNumerical msg) => (.error (.raisedNumerical msg), st)
    | .error (.raisedEval e2) => (.error (.raisedEval e2), st)
    | .error (.raisedAttr msg) => (.error (.raisedAttr msg), st)

/-! ## The symbolic differentiator
(`partial_derivative`, `_partial_derivative`, `_partial_derivative_unit`;
the identifiers here avoid the first word of those method names) -/

/-- Errors of the differentiator. -/
inductive PdErr where
  | typeError (msg : String)
  | integrityError (msg : String)
  | notImplementedError (msg : String)
  | attributeError (msg : String)
  | raisedNumerical (msg : String)
  | raisedEval (e : EvalE)
  deriving DecidableEq

/-- Construction of a `Floor` node through `Function.__init__`, which
raises an `IntegrityError` when the number of arguments is not in
`_nargs = [1]`. -/
def mkFloorN : List Expr → Except PdErr Expr
  | [x] => .ok (.floor x)
  | _ =>
    .error (.integrityError
      "Function (floor) created with wrong number of arguments")

/-- Construction of a `PartialDerivative` node through its constructor,
which raises an `IntegrityError` unless the first argument is a `Name` and
the second a `Name` or an `InitialValue`. -/
def mkPDerivOf (var1 var2 : Expr) : Except PdErr Expr :=
  match var1 with
  | .name v1 =>
    (match var2 with
     | .name w => .ok (.pderiv v1 (.argName w))
     | .initVal w => .ok (.pderiv v1 (.argInit w))
     | _ =>
       .error (.integrityError
         "The second argument to a partial derivative must be a variable name or an initial value"))
  | _ =>
    .error (.integrityError
      "The first argument to a partial derivative must be a variable name")

/-- The `_partial_derivative_unit` helper.  Its first statement evaluates
the expression's own tolerant unit through the (caching) `eval_unit`, whose
outcome always equals the pure `evalUnitI` computation; an
`IncompatibleUnitError` there is caught and turns the whole helper into
`None`.  Otherwise the next statement evaluates `lhs.var.unit()` — an
attribute access on the bound method `var`, since the call parentheses are
missing — and raises `AttributeError` before any unit can be built. -/
def pderivUnit (self : Expr) : Except PdErr (Option MUnit) :=
  match evalUnitI self .tolerant with
  | .error (.evalUnitError _ _) => .ok none
  | .error (.raisedNumerical msg) => .error (.raisedNumerical msg)
  | .error (.raisedEval e) => .error (.raisedEval e)
  | .error (.raisedAttr msg) => .error (.attributeError msg)
  | .ok _ => .error (.attributeError "method object has no attribute unit")

/-- The internal differentiator `_partial_derivative(lhs)`.  The
differentiation variable is a `Name` holding the handle `lhs`; per the
internal contract it refers to a non-constant variable, but the
bound/constant tests of `Name._partial_derivative` are kept.  `None`
results (`Except.ok none`) mean a derivative of exactly zero.  Notable
modelling points, each from the source: `Remainder` builds
`Floor(self._op1, self._op2)` — two arguments — so `mkFloorN` fails with
an `IntegrityError` whenever the divisor's derivative is not `None`;
`Derivative` passes itself as the first `PartialDerivative` argument, which
is not a `Name`; `If` builds its unit-carrying zero through `pderivUnit`
when exactly one branch derivative is `None`; `Piecewise` computes its
branch derivatives and the zero, then builds `new_ops` but ends without a
`return` statement, so it returns `None` whenever not all branch
derivatives are `None` as well as when all are. -/
def pderivOf (lhs : VarH) : Expr → Except PdErr (Option Expr)
  | .num _ _ => .ok none
  | .name v =>
    if nameValueEq (.varh lhs) v then .ok (some (.num 1 (some dimensionlessU)))
    else if lhs.isBound then .ok none
    else if lhs.isConstant then .ok none
    else do
      let p ← mkPDerivOf (.name v) (.name (.varh lhs))
      pure (some p)
  | .deriv v => do
    let p ← mkPDerivOf (.deriv v) (.name (.varh lhs))
    pure (some p)
  | .pderiv _ _ =>
    .error (.notImplementedError
      "Partial derivatives of partial derivatives are not supported")
  | .initVal _ =>
    .error (.notImplementedError
      "Partial derivatives of initial conditions are not supported")
  | .prefPlus x => do
    let o ← pderivOf lhs x
    match o with
    | none => pure none
    | some d => pure (some (.prefPlus d))
  | .prefMinus x => do
    let o ← pderivOf lhs x
    match o with
    | none => pure none
    | some d => pure (some (.prefMinus d))
  | .plus a b => do
    let o1 ← pderivOf lhs a
    let o2 ← pderivOf lhs b
    match o1, o2 with
    | none, _ => pure o2
    | _, none => pure o1
    | some d1, some d2 => pure (some (.plus d1 d2))
  | .minus a b => do
    let o1 ← pderivOf lhs a
    let o2 ← pderivOf lhs b
    match o2, o1 with
    | none, _ => pure o1
    | some d2, none => pure (some (.prefMinus d2))
    | some d2, some d1 => pure (some (.minus d1 d2))
  | .multiply a b => do
    let o1 ← pderivOf lhs a
    let o2 ← pderivOf lhs b
    match o1, o2 with
    | none, none => pure none
    | some d1, none => pure (some (.multiply d1 b))
    | none, some d2 => pure (some (.multiply a d2))
    | some d1, some d2 =>
      pure (some (.plus (.multiply d1 b) (.multiply a d2)))
  | .divide a b => do
    let o1 ← pderivOf lhs a
    let o2 ← pderivOf lhs b
    match o1, o2 with
    | none, none => pure none
    | some d1, none => pure (some (.divide d1 b))
    | none, some d2 =>
      pure (some (.prefMinus
        (.divide (.multiply a d2) (.power b (.num 2 none)))))
    | some d1, some d2 =>
      pure (some (.divide
        (.minus (.multiply d1 b) (.multiply a d2))
        (.power b (.num 2 none))))
  | .quotient _ _ => .ok none
  | .remainder a b => do
    let o1 ← pderivOf lhs a
    let o2 ← pderivOf lhs b
    match o1, o2 with
    | none, none => pure none
    | none, some d2 => do
      let fl ← mkFloorN [a, b]
      pure (some (.prefMinus (.multiply d2 fl)))
    | some d1, none => pure (some d1)
    | some d1, some d2 => do
      let fl ← mkFloorN [a, b]
      pure (some (.minus d1 (.multiply d2 fl)))
  | .power a b => do
    let o1 ← pderivOf lhs a
    let o2 ← pderivOf lhs b
    match o1, o2 with
    | none, none => pure none
    | some d1, none =>
      pure (some (.multiply
        (.multiply b (.power a (.minus b (.num 1 none)))) d1))
    | none, some d2 =>
      pure (some (.divide (.multiply (.power a b) d2) (.log a)))
    | some d1, some d2 =>
      pure (some (.multiply (.power a b)
        (.plus (.multiply (.log a) d2)
          (.multiply (.divide b a) d1))))
  | .log x => do
    let o ← pderivOf lhs x
    match o with
    | none => pure none
    | some d => pure (some (.divide d x))
  | .floor _ => .ok none
  | .less _ _ =>
    .error (.notImplementedError "Conditions do not have partial derivatives")
  | .ifE c t e => do
    let o1 ← pderivOf lhs t
    let o2 ← pderivOf lhs e
    match o1, o2 with
    | none, none => pure none
    | some d1, some d2 => pure (some (.ifE c d1 d2))
    | none, some d2 => do
      let u ← pderivUnit (.ifE c t e)
      pure (some (.ifE c (.num 0 u) d2))
    | some d1, none => do
      let u ← pderivUnit (.ifE c t e)
      pure (some (.ifE c d1 (.num 0 u)))
  | .piecewise c v d => do
    let o1 ← pderivOf lhs v
    let o2 ← pderivOf lhs d
    match o1, o2 with
    | none, none => pure none
    | some _, some _ =>
      -- no branch derivative is None: the zero is not built; `new_ops` is
      -- assembled and dropped, and the missing return yields None
      pure none
    | _, _ => do
      -- some but not all are None: the zero `Number` is built first, which
      -- calls `_partial_derivative_unit`; then the missing return yields
      -- None
      let _ ← pderivUnit (.piecewise c v d)
      pure none

/-- The public entry point `Expression.partial_derivative(lhs)`.  Its first
statement is `if not isinstance(myokit.Name, lhs):` with the arguments
reversed; the second argument of `isinstance` must be a type, and `lhs` is
an expression instance, so Python raises `TypeError` here on every call,
before the rebinding, differentiation and zero-substitution code below it
can run. -/
def pderivPublic (_self _lhs : Expr) : Except PdErr Expr :=
  .error (.typeError "isinstance() arg 2 must be a type or tuple of types")

/-! ## Auxiliary definitions used by the theorem statements -/

/-- Whether a `Name` payload is a linked variable handle. -/
def isVarName : NameValue → Bool
  | .varh _ => true
  | .str _ => false

/-- Whether the payload of a `PartialDerivative` second operand is a linked
variable handle. -/
def pdArgVar : PdArg → Bool
  | .argName w => isVarName w
  | .argInit w => isVarName w

/-- Whether every `Name` payload in the tree (including the wrapped names of
`Derivative`, `PartialDerivative` and `InitialValue`) is a linked variable
handle — the only payloads that survive validation. -/
def allVarNames : Expr → Bool
  | .num _ _ => true
  | .name v => isVarName v
  | .deriv v => isVarName v
  | .pderiv v1 v2 => isVarName v1 && pdArgVar v2
  | .initVal v => isVarName v
  | .prefPlus x => allVarNames x
  | .prefMinus x => allVarNames x
  | .plus a b => allVarNames a && allVarNames b
  | .minus a b => allVarNames a && allVarNames b
  | .multiply a b => allVarNames a && allVarNames b
  | .divide a b => allVarNames a && allVarNames b
  | .quotient a b => allVarNames a && allVarNames b
  | .remainder a b => allVarNames a && allVarNames b
  | .power a b => allVarNames a && allVarNames b
  | .log x => allVarNames x
  | .floor x => allVarNames x
  | .less a b => allVarNames a && allVarNames b
  | .ifE c t e => allVarNames c && allVarNames t && allVarNames e
  | .piecewise c v d => allVarNames c && allVarNames v && allVarNames d

/-- Numeric value of a digit character (used to state that decimal numerals
are injective). -/
def d2n (c : Char) : Nat := c.toNat - 48

/-- Value of a most-significant-first digit list. -/
def valD (l : List Char) : Nat := l.foldl (fun a c => a * 10 + d2n c) 0

/-- The infix node kinds (subclasses of `InfixExpression`). -/
inductive BinK where
  | bPlus | bMinus | bMultiply | bDivide | bQuotient | bRemainder | bPower
  | bLess
  deriving DecidableEq

/-- Node built from an infix kind and two operands. -/
def mkBin : BinK → Expr → Expr → Expr
  | .bPlus, a, b => .plus a b
  | .bMinus, a, b => .minus a b
  | .bMultiply, a, b => .multiply a b
  | .bDivide, a, b => .divide a b
  | .bQuotient, a, b => .quotient a b
  | .bRemainder, a, b => .remainder a b
  | .bPower, a, b => .power a b
  | .bLess, a, b => .less a b

/-- Operator representation `_rep` of an infix kind. -/
def repOfBin : BinK → String
  | .bPlus => "+"
  | .bMinus => "-"
  | .bMultiply => "*"
  | .bDivide => "/"
  | .bQuotient => "//"
  | .bRemainder => "%"
  | .bPower => "^"
  | .bLess => "<"

/-- Right-binding power `_rbp` of an infix kind. -/
def rbpOfBin : BinK → Nat
  | .bPlus => SUM
  | .bMinus => SUM
  | .bMultiply => PRODUCT
  | .bDivide => PRODUCT
  | .bQuotient => PRODUCT
  | .bRemainder => PRODUCT
  | .bPower => POWER
  | .bLess => CONDITIONAL

/-- The expressions whose evaluation the rational model reproduces exactly:
numbers and the arithmetic, comparison and conditional nodes over them
(no variable references, no transcendentals, no powers). -/
def exactArith : Expr → Bool
  | .num _ _ => true
  | .name _ => false
  | .deriv _ => false
  | .pderiv _ _ => false
  | .initVal _ => false
  | .prefPlus x => exactArith x
  | .prefMinus x => exactArith x
  | .plus a b => exactArith a && exactArith b
  | .minus a b => exactArith a && exactArith b
  | .multiply a b => exactArith a && exactArith b
  | .divide a b => exactArith a && exactArith b
  | .quotient a b => exactArith a && exactArith b
  | .remainder a b => exactArith a && exactArith b
  | .power _ _ => false
  | .log _ => false
  | .floor x => exactArith x
  | .less a b => exactArith a && exactArith b
  | .ifE c t e => exactArith c && exactArith t && exactArith e
  | .piecewise c v d => exactArith c && exactArith v && exactArith d

/-- The value string an operand contributes to the diagnostic message:
its isolated evaluation, an `EvalError` shown as the placeholder. -/
def operandValueStr (op : Expr) : String :=
  match evalI op with
  | .ok v => pyStr v
  | .error _ => "another error"

/-- Substring relation on strings (stated over the character lists). -/
def strInfixP (needle hay : String) : Prop := needle.data <:+: hay.data

/-- The per-mode cache slot that `eval_unit` reads. -/
def cachedSlotOf (st : UnitCache) (m : UMode) : USlot :=
  match m with
  | .strict => st.cachedUnitStrict
  | .tolerant => st.cachedUnitTolerant

/-- A sample variable handle: an intermediary (non-state, non-bound,
non-constant) variable, used as differentiation variable in the concrete
instances. -/
def hX : VarH :=
  { objId := 11, qname := "c.x", unit := none, isState := false,
    isBound := false, isConstant := false, stateValue := 0,
    timeUnit := none, rhsVal := none, rhsCode := "" }

/-! # Helper lemmas -/

theorem clone_id (e : Expr) : clone e = e := by
  induction e <;> simp [clone, *]

theorem nameValueEq_refl (v : NameValue) : nameValueEq v v = true := by
  cases v <;> simp [nameValueEq]

theorem pyEq_refl (e : Expr) : pyEq e e = true := by
  cases e with
  | pderiv v1 v2 => cases v2 <;> simp [pyEq, nameValueEq_refl]
  | _ => simp [pyEq, nameValueEq_refl]

theorem hasPartials_eq_occurs (e : Expr) : hasPartials e = occursPDeriv e := by
  induction e <;> simp [hasPartials, occursPDeriv, *]

theorem hasInitials_eq_occurs (e : Expr) : hasInitials e = occursInitVal e := by
  induction e <;> simp [hasInitials, occursInitVal, *]

/-! # Claims -/

/-- Claim C9: for every expression `e` of any node kind, `clone()` with no
substitution, no expansion and no retain set produces a structurally equal
tree with `clone(e) == e` and `hash(clone(e)) == hash(e)` (hashes are
hashes of the canonical forms, so equal canonical forms give equal
hashes). -/
theorem c9_clone_eq_and_hash (e : Expr) :
    pyEq (clone e) e = true ∧ exprHash (clone e) = exprHash e := by
  rw [clone_id]
  exact ⟨pyEq_refl e, rfl⟩

/-- Claim C10: `contains_type(e, PartialDerivative)`, answering from the
constructor-propagated `_has_partials` flag, agrees with the recursive
depth-first search for a `PartialDerivative` node, and likewise
`contains_type(e, InitialValue)` with `_has_initials` and an
`InitialValue` search. -/
theorem c10_contains_type_flag_equiv (e : Expr) :
    containsTypePDeriv e = occursPDeriv e ∧
      containsTypeInitVal e = occursInitVal e := by
  constructor
  · cases e <;>
      simp [containsTypePDeriv, hasPartials_eq_occurs, occursPDeriv]
  · cases e <;>
      simp [containsTypeInitVal, hasInitials_eq_occurs, occursInitVal]

/-- Claim C2 (the code, at the failing input): the expression `Number(5)`
references no variable at all, so the claim promises that
`partial_derivative(Number(5), Name(x))` returns a zero `Number`; but the
public entry point raises `TypeError` from its reversed `isinstance` check
before doing anything. -/
theorem c2_public_pderiv_raises_type_error :
    (refs (Expr.num 5 none)).isEmpty = true ∧
      pderivPublic (.num 5 none) (.name (.varh hX)) =
        .error (.typeError "isinstance() arg 2 must be a type or tuple of types") :=
  ⟨rfl, rfl⟩

/-- Claim C3 (the code, at the failing input): differentiating
`Name(x) % Name(x)` with respect to `x` gives non-`None` derivatives for
both operands (each is `Number(1)`), after which
`Remainder._partial_derivative` calls `Floor(self._op1, self._op2)` with two
arguments and `Function.__init__` raises an `IntegrityError` instead of the
claimed `a' - b' * floor(a / b)` expression. -/
theorem c3_remainder_pderiv_integrity_error :
    pderivOf hX (.name (.varh hX)) = .ok (some (.num 1 (some dimensionlessU))) ∧
      pderivOf hX (.remainder (.name (.varh hX)) (.name (.varh hX))) =
        .error (.integrityError
          "Function (floor) created with wrong number of arguments") :=
  ⟨rfl, rfl⟩

/-- Claim C4 (the code, at the failing input): for
`piecewise(x < 10, x, x)` differentiated with respect to `x` both value
branches have the non-`None` derivative `Number(1)`, yet
`Piecewise._partial_derivative` returns `None`, because after assembling
`new_ops` the function body ends without a `return` statement. -/
theorem c4_piecewise_pderiv_returns_none :
    pderivOf hX (.piecewise (.less (.name (.varh hX)) (.num 10 none))
        (.name (.varh hX)) (.name (.varh hX))) = .ok none ∧
      pderivOf hX (.name (.varh hX)) =
        .ok (some (.num 1 (some dimensionlessU))) :=
  ⟨rfl, rfl⟩

/-- Claim C5 (idempotence holds, caching does not): for every expression
and either mode, calling `eval_unit` a second time returns the same result
as the first call — but only because it recomputes: the per-mode cache slot
that the method reads (`_cached_unit_strict` / `_cached_unit_tolerant`) is
still `None` after the first call, since the method assigns its result to
the different attributes `_unit_strict` / `_unit_tolerant`. -/
theorem c5_eval_unit_idempotent_but_cache_never_written (e : Expr) (m : UMode) :
    (evalUnitCached e m (evalUnitCached e m initCache).2).1 =
        (evalUnitCached e m initCache).1 ∧
      cachedSlotOf (evalUnitCached e m initCache).2 m = .pynone := by
  cases m with
  | tolerant =>
    cases h : evalUnitI e UMode.tolerant with
    | ok u => cases u <;> simp [evalUnitCached, initCache, cachedSlotOf, h]
    | error er => cases er <;> simp [evalUnitCached, initCache, cachedSlotOf, h]
  | strict =>
    cases h : evalUnitI e UMode.strict with
    | ok u => cases u <;> simp [evalUnitCached, initCache, cachedSlotOf, h]
    | error er => cases er <;> simp [evalUnitCached, initCache, cachedSlotOf, h]

/-- Claim C8: an infix node parenthesises its left operand iff
`LITERAL < rbp(left) < rbp(self)` and its right operand iff
`LITERAL < rbp(right) <= rbp(self)`; consequently
`Minus(Number(1), Minus(Number(2), Number(3)))` renders as `1 - (2 - 3)`
and `Minus(Minus(Number(1), Number(2)), Number(3))` renders as
`1 - 2 - 3`. -/
theorem c8_infix_parenthesisation :
    (∀ (k : BinK) (l r : Expr),
      code (mkBin k l r) =
        (if LITERAL < rbp l ∧ rbp l < rbpOfBin k
         then "(" ++ code l ++ ")" else code l)
        ++ " " ++ repOfBin k ++ " " ++
        (if LITERAL < rbp r ∧ rbp r ≤ rbpOfBin k
         then "(" ++ code r ++ ")" else code r)) ∧
      code (.minus (.num 1 none) (.minus (.num 2 none) (.num 3 none))) =
        "1 - (2 - 3)" ∧
      code (.minus (.minus (.num 1 none) (.num 2 none)) (.num 3 none)) =
        "1 - 2 - 3" := by
  refine ⟨fun k l r => ?_, by decide, by decide⟩
  cases k <;> rfl

/-- Claim C7: `Quotient` and `Remainder` evaluate with floor-division
semantics — the quotient rounds toward negative infinity, the remainder is
`a - b * floor(a / b)` and so takes the sign of the divisor with
`a = b * (a // b) + (a % b)` — and in particular
`Quotient(-7, 3) = -3`, `Remainder(-7, 3) = 2`, `Quotient(5, -3) = -2`,
`Remainder(5, -3) = -1`. -/
theorem c7_quotient_remainder_floor_semantics :
    pubEval (.quotient (.num (-7) none) (.num 3 none)) = .ok (.num (-3)) ∧
    pubEval (.remainder (.num (-7) none) (.num 3 none)) = .ok (.num 2) ∧
    pubEval (.quotient (.num 5 none) (.num (-3) none)) = .ok (.num (-2)) ∧
    pubEval (.remainder (.num 5 none) (.num (-3) none)) = .ok (.num (-1)) ∧
    ∀ q r : ℚ, r ≠ 0 →
      evalI (.quotient (.num q none) (.num r none)) =
          .ok (.num (⌊q / r⌋ : ℚ)) ∧
        evalI (.remainder (.num q none) (.num r none)) =
          .ok (.num (q - r * ⌊q / r⌋)) ∧
        r * (⌊q / r⌋ : ℚ) + (q - r * ⌊q / r⌋) = q ∧
        (0 < r → 0 ≤ q - r * ⌊q / r⌋ ∧ q - r * ⌊q / r⌋ < r) ∧
        (r < 0 → r < q - r * ⌊q / r⌋ ∧ q - r * ⌊q / r⌋ ≤ 0) := by
  refine ⟨?_, ?_, ?_, ?_, fun q r hr => ?_⟩
  · rw [show pubEval (.quotient (.num (-7) none) (.num 3 none)) =
        .ok (.num ((⌊((-7 : ℚ)) / 3⌋ : ℚ))) from rfl]
    norm_num
  · rw [show pubEval (.remainder (.num (-7) none) (.num 3 none)) =
        .ok (.num ((-7 : ℚ) - 3 * (⌊((-7 : ℚ)) / 3⌋ : ℚ))) from rfl]
    norm_num
  · rw [show pubEval (.quotient (.num 5 none) (.num (-3) none)) =
        .ok (.num ((⌊(5 : ℚ) / (-3)⌋ : ℚ))) from rfl]
    norm_num
  · rw [show pubEval (.remainder (.num 5 none) (.num (-3) none)) =
        .ok (.num ((5 : ℚ) - (-3) * (⌊(5 : ℚ) / (-3)⌋ : ℚ))) from rfl]
    norm_num
  have hq : r * (q / r) = q := by
    rw [mul_comm]; exact div_mul_cancel₀ q hr
  have hkey : q - r * (⌊q / r⌋ : ℚ) = r * Int.fract (q / r) := by
    rw [Int.fract, mul_sub, hq]
  refine ⟨?_, ?_, by ring, fun h => ?_, fun h => ?_⟩
  · rw [show evalI (.quotient (.num q none) (.num r none)) =
        if r = 0 then
          Except.error (.evalError (.quotient (.num q none) (.num r none))
            "float floor division by zero")
        else .ok (.num ((⌊q / r⌋ : ℚ))) from rfl, if_neg hr]
  · rw [show evalI (.remainder (.num q none) (.num r none)) =
        if r = 0 then
          Except.error (.evalError (.remainder (.num q none) (.num r none))
            "float modulo")
        else .ok (.num (q - r * (⌊q / r⌋ : ℚ))) from rfl, if_neg hr]
  · constructor
    · rw [hkey]
      exact mul_nonneg h.le (Int.fract_nonneg _)
    · rw [hkey]
      calc r * Int.fract (q / r) < r * 1 :=
            (mul_lt_mul_left h).2 (Int.fract_lt_one _)
        _ = r := mul_one r
  · constructor
    · rw [hkey]
      nlinarith [Int.fract_lt_one (q / r)]
    · rw [hkey]
      nlinarith [Int.fract_nonneg (q / r)]

/-- Witness for claim C7's universal law at the concrete divisor pair
`(-7, 3)`. -/
theorem c7_floor_semantics_witness :
    ((3 : ℚ) ≠ 0) ∧
      evalI (.quotient (.num (-7) none) (.num 3 none)) =
        .ok (.num (⌊((-7 : ℚ)) / 3⌋ : ℚ)) :=
  ⟨by decide,
    (c7_quotient_remainder_floor_semantics.2.2.2.2 (-7) 3 (by decide)).1⟩

/-! ## String and numeral lemmas for the canonical-form claims -/

theorem sdata_append (s t : String) : (s ++ t).data = s.data ++ t.data := by
  cases s; cases t; rfl

theorem sext {s t : String} (h : s.data = t.data) : s = t := congrArg String.mk h

theorem strApp_left_cancel {p s t : String} (h : p ++ s = p ++ t) : s = t := by
  apply sext
  have h2 := congrArg String.data h
  rw [sdata_append, sdata_append] at h2
  exact List.append_cancel_left h2

theorem d2n_digitChar (n : Nat) (h : n < 10) : d2n (digitChar n) = n := by
  interval_cases n <;> rfl

theorem digitChar_isDigit (n : Nat) : (digitChar n).isDigit = true := by
  unfold digitChar
  rcases n with _ | _ | _ | _ | _ | _ | _ | _ | _ | n <;> rfl

theorem natDigitsF_digits :
    ∀ (f n : Nat), ∀ c ∈ natDigitsF f n, c.isDigit = true := by
  intro f
  induction f with
  | zero => intro n c hc; simp [natDigitsF] at hc
  | succ f ih =>
    intro n c hc
    rw [natDigitsF] at hc
    by_cases h : n < 10
    · rw [if_pos h] at hc
      simp at hc
      rw [hc]
      exact digitChar_isDigit n
    · rw [if_neg h] at hc
      rcases List.mem_append.1 hc with h1 | h1
      · exact ih _ c h1
      · simp at h1
        rw [h1]
        exact digitChar_isDigit _

theorem valD_append_digit (l : List Char) (c : Char) :
    valD (l ++ [c]) = valD l * 10 + d2n c := by
  simp [valD, List.foldl_append]

theorem valD_natDigitsF : ∀ f n, n < f → valD (natDigitsF f n) = n := by
  intro f
  induction f with
  | zero => omega
  | succ f ih =>
    intro n hn
    rw [natDigitsF]
    by_cases h : n < 10
    · rw [if_pos h]
      simp [valD, d2n_digitChar n h]
    · rw [if_neg h]
      have hd : n / 10 < f := by
        have h1 : n / 10 < n := Nat.div_lt_self (by omega) (by omega)
        omega
      rw [valD_append_digit, ih _ hd, d2n_digitChar _ (Nat.mod_lt _ (by omega))]
      omega

theorem natStr_inj {a b : Nat} (h : natStr a = natStr b) : a = b := by
  have h2 : natDigitsF (a + 1) a = natDigitsF (b + 1) b :=
    congrArg String.data h
  have ha := valD_natDigitsF (a + 1) a (by omega)
  have hb := valD_natDigitsF (b + 1) b (by omega)
  rw [← ha, ← hb, h2]

theorem natStr_digits (n : Nat) : ∀ c ∈ (natStr n).data, c.isDigit = true :=
  natDigitsF_digits (n + 1) n

theorem polishName_var_iff (h1 h2 : VarH) :
    polishName (.varh h1) = polishName (.varh h2) ↔ h1.objId = h2.objId := by
  constructor
  · intro h
    exact natStr_inj (strApp_left_cancel (p := "var:") h)
  · intro h
    rw [polishName, polishName, h]

/-- Splitting a concatenation of a digit run and a non-digit-headed rest:
the runs and the rests agree separately. -/
theorem digit_split :
    ∀ (xs ys zs ws : List Char),
      (∀ c ∈ xs, c.isDigit = true) → (∀ c ∈ ys, c.isDigit = true) →
      (∀ c ∈ zs.head?, c.isDigit = false) →
      (∀ c ∈ ws.head?, c.isDigit = false) →
      xs ++ zs = ys ++ ws → xs = ys ∧ zs = ws := by
  intro xs
  induction xs with
  | nil =>
    intro ys zs ws _ hy hz _ h
    cases ys with
    | nil => exact ⟨rfl, h⟩
    | cons y ys2 =>
      exfalso
      have hzy : zs.head? = some y := by rw [List.nil_append] at h; rw [h]; rfl
      have h1 := hz y (by rw [hzy]; rfl)
      have h2 := hy y (by simp)
      rw [h1] at h2
      exact Bool.false_ne_true h2
  | cons x xs2 ih =>
    intro ys zs ws hx hy hz hw h
    cases ys with
    | nil =>
      exfalso
      have hwx : ws.head? = some x := by rw [List.nil_append] at h; rw [← h]; rfl
      have h1 := hw x (by rw [hwx]; rfl)
      have h2 := hx x (by simp)
      rw [h1] at h2
      exact Bool.false_ne_true h2
    | cons y ys2 =>
      rw [List.cons_append, List.cons_append] at h
      have hxy : x = y := (List.cons.injEq _ _ _ _ ▸ h).1
      have ht : xs2 ++ zs = ys2 ++ ws := (List.cons.injEq _ _ _ _ ▸ h).2
      obtain ⟨e1, e2⟩ :=
        ih ys2 zs ws (fun c hc => hx c (by simp [hc]))
          (fun c hc => hy c (by simp [hc])) hz hw ht
      exact ⟨by rw [hxy, e1], e2⟩

theorem pdArg_head_nondigit (A : PdArg) :
    ∀ c ∈ (polishArg A).data.head?, c.isDigit = false := by
  rcases A with v | v <;> rcases v with h | s <;>
    · intro c hc
      simp only [polishArg, polishName, sdata_append] at hc
      simp at hc
      cases hc
      rfl

theorem polishName_head (v : NameValue) :
    (polishName v).data.head? =
      some (match v with | .varh _ => 'v' | .str _ => 's') := by
  rcases v with h | s <;> rfl

theorem polishArg_head (A : PdArg) :
    (polishArg A).data.head? =
      some (match A with
            | .argName (.varh _) => 'v'
            | .argName (.str _) => 's'
            | .argInit _ => 'i') := by
  rcases A with v | v <;> rcases v with h | s <;> rfl

theorem nameValueEq_iff_polishName (v w : NameValue) :
    nameValueEq v w = true ↔ polishName v = polishName w := by
  rcases v with h1 | s1 <;> rcases w with h2 | s2
  · simp only [nameValueEq, beq_iff_eq]
    rw [polishName_var_iff]
  · simp only [nameValueEq, Bool.false_eq_true, false_iff]
    intro h
    have hh := congrArg List.head? (congrArg String.data h)
    rw [polishName_head, polishName_head] at hh
    simp at hh
  · simp only [nameValueEq, Bool.false_eq_true, false_iff]
    intro h
    have hh := congrArg List.head? (congrArg String.data h)
    rw [polishName_head, polishName_head] at hh
    simp at hh
  · simp only [nameValueEq, beq_iff_eq, polishName]
    constructor
    · intro h; rw [h]
    · intro h; exact strApp_left_cancel h

theorem c1_pderiv_iff (a b : VarH) (A B : PdArg)
    (hA : pdArgVar A = true) (hB : pdArgVar B = true) :
    pyEq (.pderiv (.varh a) A) (.pderiv (.varh b) B) = true ↔
      polish (.pderiv (.varh a) A) = polish (.pderiv (.varh b) B) := by
  have hdata : ∀ (h0 : VarH) (C : PdArg),
      (polish (.pderiv (.varh h0) C)).data =
        ("partial var:".data ++ (natStr h0.objId).data) ++ (polishArg C).data := by
    intro h0 C
    show (("partial " ++ ("var:" ++ natStr h0.objId)) ++ polishArg C).data = _
    rw [sdata_append, sdata_append, sdata_append]
    simp [List.append_assoc]
  constructor
  · intro h
    simp only [pyEq, Bool.and_eq_true] at h
    obtain ⟨h1, h2⟩ := h
    have e1 : a.objId = b.objId := by
      simpa [nameValueEq, beq_iff_eq] using h1
    have e2 : polishArg A = polishArg B := by
      rcases A with va | va <;> rcases B with vb | vb
      · have := (nameValueEq_iff_polishName va vb).1 h2
        simp [polishArg, this]
      · exact absurd h2 (by simp)
      · exact absurd h2 (by simp)
      · have := (nameValueEq_iff_polishName va vb).1 h2
        simp [polishArg, this]
    apply sext
    rw [hdata, hdata, e1, e2]
  · intro h
    have hd := congrArg String.data h
    rw [hdata, hdata] at hd
    simp only [List.append_assoc] at hd
    have hd2 := List.append_cancel_left hd
    obtain ⟨hx, hz⟩ :=
      digit_split _ _ _ _ (natStr_digits _) (natStr_digits _)
        (pdArg_head_nondigit A) (pdArg_head_nondigit B) hd2
    have e1 : a.objId = b.objId := natStr_inj (sext hx)
    have e2 : polishArg A = polishArg B := sext hz
    simp only [pyEq, Bool.and_eq_true]
    refine ⟨by simp [nameValueEq, e1], ?_⟩
    rcases A with va | va <;> rcases B with vb | vb
    · have : polishName va = polishName vb := by simpa [polishArg] using e2
      exact (nameValueEq_iff_polishName va vb).2 this
    · exfalso
      have hh := congrArg List.head? (congrArg String.data e2)
      rw [polishArg_head, polishArg_head] at hh
      rcases va with h1 | s1 <;> simp at hh
    · exfalso
      have hh := congrArg List.head? (congrArg String.data e2)
      rw [polishArg_head, polishArg_head] at hh
      rcases vb with h1 | s1 <;> simp at hh
    · have : polishName va = polishName vb := by
        have := congrArg String.data e2
        simp only [polishArg, sdata_append] at this
        exact sext (List.append_cancel_left this)
      exact (nameValueEq_iff_polishName va vb).2 this

/-- Claim C1, counterexample: two `PartialDerivative` expressions over
debugging-string names that are unequal under `==` (their first operands
differ) yet have the same node kind and — because
`PartialDerivative._polishb` writes its operands with no separator — the
same canonical form.  The claimed equivalence is therefore false as
stated. -/
theorem c1_pd_polish_collision :
    pyEq (Expr.pderiv (.str "a") (.argName (.str "bstr:c")))
        (Expr.pderiv (.str "astr:b") (.argName (.str "c"))) = false ∧
      kindOf (Expr.pderiv (.str "a") (.argName (.str "bstr:c"))) =
        kindOf (Expr.pderiv (.str "astr:b") (.argName (.str "c"))) ∧
      polish (Expr.pderiv (.str "a") (.argName (.str "bstr:c"))) =
        polish (Expr.pderiv (.str "astr:b") (.argName (.str "c"))) ∧
      ¬ (pyEq (Expr.pderiv (.str "a") (.argName (.str "bstr:c")))
            (Expr.pderiv (.str "astr:b") (.argName (.str "c"))) = true ↔
          (kindOf (Expr.pderiv (.str "a") (.argName (.str "bstr:c"))) =
              kindOf (Expr.pderiv (.str "astr:b") (.argName (.str "c"))) ∧
            polish (Expr.pderiv (.str "a") (.argName (.str "bstr:c"))) =
              polish (Expr.pderiv (.str "astr:b") (.argName (.str "c"))))) := by
  decide

/-- Claim C1, amended: restricted to expressions whose `Name` payloads are
all linked variable handles — the only payloads that survive validation —
equality is equivalent to kind-equality plus canonical-form equality, for
every node kind including the four that override `__eq__`; and equal
expressions have equal canonical forms, hence equal hashes. -/
theorem c1_eq_iff_kind_and_polish_on_var_names (e f : Expr)
    (he : allVarNames e = true) (hf : allVarNames f = true) :
    (pyEq e f = true ↔ (kindOf e = kindOf f ∧ polish e = polish f)) ∧
      (pyEq e f = true → exprHash e = exprHash f) := by
  have main : pyEq e f = true ↔ (kindOf e = kindOf f ∧ polish e = polish f) := by
    cases e with
    | name v =>
      cases f <;> simp [pyEq, kindOf]
      exact nameValueEq_iff_polishName v _
    | deriv v =>
      cases f <;> simp [pyEq, kindOf]
      case deriv w =>
        rw [show ∀ x, polish (Expr.deriv x) = "dot " ++ polishName x
            from fun _ => rfl,
          show ∀ x, polish (Expr.deriv x) = "dot " ++ polishName x
            from fun _ => rfl]
        constructor
        · intro h
          rw [(nameValueEq_iff_polishName v w).1 h]
        · intro h
          exact (nameValueEq_iff_polishName v w).2 (strApp_left_cancel h)
    | initVal v =>
      cases f <;> simp [pyEq, kindOf]
      case initVal w =>
        rw [show ∀ x, polish (Expr.initVal x) = "init " ++ polishName x
            from fun _ => rfl,
          show ∀ x, polish (Expr.initVal x) = "init " ++ polishName x
            from fun _ => rfl]
        constructor
        · intro h
          rw [(nameValueEq_iff_polishName v w).1 h]
        · intro h
          exact (nameValueEq_iff_polishName v w).2 (strApp_left_cancel h)
    | pderiv v1 v2 =>
      cases f <;> simp [pyEq, kindOf]
      case pderiv w1 w2 =>
        obtain ⟨hv1, hv2⟩ := by simpa [allVarNames, Bool.and_eq_true] using he
        obtain ⟨hw1, hw2⟩ := by simpa [allVarNames, Bool.and_eq_true] using hf
        obtain ⟨a, rfl⟩ : ∃ h0, v1 = NameValue.varh h0 := by
          rcases v1 with h0 | s
          · exact ⟨h0, rfl⟩
          · simp [isVarName] at hv1
        obtain ⟨b, rfl⟩ : ∃ h0, w1 = NameValue.varh h0 := by
          rcases w1 with h0 | s
          · exact ⟨h0, rfl⟩
          · simp [isVarName] at hw1
        have := c1_pderiv_iff a b v2 w2 hv2 hw2
        simpa [pyEq] using this
    | num v u => simp [pyEq, Bool.and_eq_true, beq_iff_eq]
    | prefPlus x => simp [pyEq, Bool.and_eq_true, beq_iff_eq]
    | prefMinus x => simp [pyEq, Bool.and_eq_true, beq_iff_eq]
    | plus a b => simp [pyEq, Bool.and_eq_true, beq_iff_eq]
    | minus a b => simp [pyEq, Bool.and_eq_true, beq_iff_eq]
    | multiply a b => simp [pyEq, Bool.and_eq_true, beq_iff_eq]
    | divide a b => simp [pyEq, Bool.and_eq_true, beq_iff_eq]
    | quotient a b => simp [pyEq, Bool.and_eq_true, beq_iff_eq]
    | remainder a b => simp [pyEq, Bool.and_eq_true, beq_iff_eq]
    | power a b => simp [pyEq, Bool.and_eq_true, beq_iff_eq]
    | log x => simp [pyEq, Bool.and_eq_true, beq_iff_eq]
    | floor x => simp [pyEq, Bool.and_eq_true, beq_iff_eq]
    | less a b => simp [pyEq, Bool.and_eq_true, beq_iff_eq]
    | ifE c t e2 => simp [pyEq, Bool.and_eq_true, beq_iff_eq]
    | piecewise c v d => simp [pyEq, Bool.and_eq_true, beq_iff_eq]
  exact ⟨main, fun h => by simpa [exprHash] using (main.1 h).2⟩

/-- Witness for claim C1's amended equivalence at a concrete pair of
variable-handle expressions. -/
theorem c1_eq_iff_witness :
    (allVarNames (Expr.name (.varh hX)) = true) ∧
      ((pyEq (Expr.name (.varh hX)) (Expr.name (.varh hX)) = true ↔
          (kindOf (Expr.name (.varh hX)) = kindOf (Expr.name (.varh hX)) ∧
            polish (Expr.name (.varh hX)) = polish (Expr.name (.varh hX)))) ∧
        (pyEq (Expr.name (.varh hX)) (Expr.name (.varh hX)) = true →
          exprHash (Expr.name (.varh hX)) = exprHash (Expr.name (.varh hX)))) :=
  ⟨by decide,
    c1_eq_iff_kind_and_polish_on_var_names _ _ (by decide) (by decide)⟩

/-! ## Lemmas for the diagnostic-message claim -/

theorem except_bind_ok {α β γ : Type} (a : α) (f : α → Except γ β) :
    (Except.ok a : Except γ α) >>= f = f a := rfl

theorem except_bind_err {α β γ : Type} (er : γ) (f : α → Except γ β) :
    (Except.error er : Except γ α) >>= f = Except.error er := rfl

theorem exactArith_refs (e : Expr) (h : exactArith e = true) : refs e = [] := by
  induction e <;> simp_all [exactArith, refs]

theorem exactArith_eval (e : Expr) (h : exactArith e = true) :
    (∃ v, evalI e = .ok v) ∨ ∃ ex m, evalI e = .error (.evalError ex m) := by
  induction e with
  | num v u => exact .inl ⟨.num v, rfl⟩
  | name v => simp [exactArith] at h
  | deriv v => simp [exactArith] at h
  | pderiv v1 v2 => simp [exactArith] at h
  | initVal v => simp [exactArith] at h
  | prefPlus x ih =>
    rcases ih (by simpa [exactArith] using h) with ⟨v, hv⟩ | ⟨ex, m, hm⟩
    · exact .inl ⟨v, by simp [evalI, hv]⟩
    · exact .inr ⟨ex, m, by simp [evalI, hm]⟩
  | prefMinus x ih =>
    rcases ih (by simpa [exactArith] using h) with ⟨v, hv⟩ | ⟨ex, m, hm⟩
    · exact .inl ⟨.num (-(toQ v)), by simp [evalI, hv, except_bind_ok]⟩
    · exact .inr ⟨ex, m, by simp [evalI, hm, except_bind_err]⟩
  | plus a b iha ihb =>
    obtain ⟨h1, h2⟩ := by simpa [exactArith, Bool.and_eq_true] using h
    rcases iha h1 with ⟨v, hv⟩ | ⟨ex, m, hm⟩
    · rcases ihb h2 with ⟨v2, hv2⟩ | ⟨ex2, m2, hm2⟩
      · exact .inl ⟨.num (toQ v + toQ v2), by simp [evalI, hv, hv2, except_bind_ok]⟩
      · exact .inr ⟨ex2, m2, by simp [evalI, hv, hm2, except_bind_ok, except_bind_err]⟩
    · exact .inr ⟨ex, m, by simp [evalI, hm, except_bind_err]⟩
  | minus a b iha ihb =>
    obtain ⟨h1, h2⟩ := by simpa [exactArith, Bool.and_eq_true] using h
    rcases iha h1 with ⟨v, hv⟩ | ⟨ex, m, hm⟩
    · rcases ihb h2 with ⟨v2, hv2⟩ | ⟨ex2, m2, hm2⟩
      · exact .inl ⟨.num (toQ v - toQ v2), by simp [evalI, hv, hv2, except_bind_ok]⟩
      · exact .inr ⟨ex2, m2, by simp [evalI, hv, hm2, except_bind_ok, except_bind_err]⟩
    · exact .inr ⟨ex, m, by simp [evalI, hm, except_bind_err]⟩
  | multiply a b iha ihb =>
    obtain ⟨h1, h2⟩ := by simpa [exactArith, Bool.and_eq_true] using h
    rcases iha h1 with ⟨v, hv⟩ | ⟨ex, m, hm⟩
    · rcases ihb h2 with ⟨v2, hv2⟩ | ⟨ex2, m2, hm2⟩
      · exact .inl ⟨.num (toQ v * toQ v2), by simp [evalI, hv, hv2, except_bind_ok]⟩
      · exact .inr ⟨ex2, m2, by simp [evalI, hv, hm2, except_bind_ok, except_bind_err]⟩
    · exact .inr ⟨ex, m, by simp [evalI, hm, except_bind_err]⟩
  | divide a b iha ihb =>
    obtain ⟨h1, h2⟩ := by simpa [exactArith, Bool.and_eq_true] using h
    rcases ihb h2 with ⟨v2, hv2⟩ | ⟨ex2, m2, hm2⟩
    · by_cases hz : toQ v2 = 0
      · exact .inr ⟨.divide a b, "", by simp [evalI, hv2, except_bind_ok, hz]⟩
      · rcases iha h1 with ⟨v, hv⟩ | ⟨ex, m, hm⟩
        · exact .inl ⟨.num (toQ v / toQ v2), by simp [evalI, hv2, hv, except_bind_ok, hz]⟩
        · exact .inr ⟨ex, m, by simp [evalI, hv2, hm, except_bind_ok, except_bind_err, hz]⟩
    · exact .inr ⟨ex2, m2, by simp [evalI, hm2, except_bind_err]⟩
  | quotient a b iha ihb =>
    obtain ⟨h1, h2⟩ := by simpa [exactArith, Bool.and_eq_true] using h
    rcases iha h1 with ⟨v, hv⟩ | ⟨ex, m, hm⟩
    · rcases ihb h2 with ⟨v2, hv2⟩ | ⟨ex2, m2, hm2⟩
      · by_cases hz : toQ v2 = 0
        · exact .inr ⟨.quotient a b, "float floor division by zero",
            by simp [evalI, hv, hv2, except_bind_ok, hz]⟩
        · exact .inl ⟨.num ((⌊toQ v / toQ v2⌋ : ℚ)), by simp [evalI, hv, hv2, except_bind_ok, hz]⟩
      · exact .inr ⟨ex2, m2, by simp [evalI, hv, hm2, except_bind_ok, except_bind_err]⟩
    · exact .inr ⟨ex, m, by simp [evalI, hm, except_bind_err]⟩
  | remainder a b iha ihb =>
    obtain ⟨h1, h2⟩ := by simpa [exactArith, Bool.and_eq_true] using h
    rcases iha h1 with ⟨v, hv⟩ | ⟨ex, m, hm⟩
    · rcases ihb h2 with ⟨v2, hv2⟩ | ⟨ex2, m2, hm2⟩
      · by_cases hz : toQ v2 = 0
        · exact .inr ⟨.remainder a b, "float modulo",
            by simp [evalI, hv, hv2, except_bind_ok, hz]⟩
        · exact .inl ⟨.num (toQ v - toQ v2 * (⌊toQ v / toQ v2⌋ : ℚ)),
            by simp [evalI, hv, hv2, except_bind_ok, hz]⟩
      · exact .inr ⟨ex2, m2, by simp [evalI, hv, hm2, except_bind_ok, except_bind_err]⟩
    · exact .inr ⟨ex, m, by simp [evalI, hm, except_bind_err]⟩
  | power a b => simp [exactArith] at h
  | log x => simp [exactArith] at h
  | floor x ih =>
    rcases ih (by simpa [exactArith] using h) with ⟨v, hv⟩ | ⟨ex, m, hm⟩
    · exact .inl ⟨.num ((⌊toQ v⌋ : ℚ)), by simp [evalI, hv, except_bind_ok]⟩
    · exact .inr ⟨ex, m, by simp [evalI, hm, except_bind_err]⟩
  | less a b iha ihb =>
    obtain ⟨h1, h2⟩ := by simpa [exactArith, Bool.and_eq_true] using h
    rcases iha h1 with ⟨v, hv⟩ | ⟨ex, m, hm⟩
    · rcases ihb h2 with ⟨v2, hv2⟩ | ⟨ex2, m2, hm2⟩
      · exact .inl ⟨.bool (decide (toQ v < toQ v2)), by simp [evalI, hv, hv2, except_bind_ok]⟩
      · exact .inr ⟨ex2, m2, by simp [evalI, hv, hm2, except_bind_ok, except_bind_err]⟩
    · exact .inr ⟨ex, m, by simp [evalI, hm, except_bind_err]⟩
  | ifE c t e2 ihc iht ihe =>
    obtain ⟨hc, ht, he⟩ :
        exactArith c = true ∧ exactArith t = true ∧ exactArith e2 = true := by
      simpa [exactArith, Bool.and_eq_true, and_assoc] using h
    rcases ihc hc with ⟨v, hv⟩ | ⟨ex, m, hm⟩
    · by_cases hz : toQ v ≠ 0
      · rcases iht ht with ⟨v2, hv2⟩ | ⟨ex2, m2, hm2⟩
        · exact .inl ⟨v2, by simp [evalI, hv, except_bind_ok, hz, hv2]⟩
        · exact .inr ⟨ex2, m2, by simp [evalI, hv, except_bind_ok, hz, hm2]⟩
      · rcases ihe he with ⟨v2, hv2⟩ | ⟨ex2, m2, hm2⟩
        · exact .inl ⟨v2, by simp [evalI, hv, except_bind_ok, hz, hv2]⟩
        · exact .inr ⟨ex2, m2, by simp [evalI, hv, except_bind_ok, hz, hm2]⟩
    · exact .inr ⟨ex, m, by simp [evalI, hm, except_bind_err]⟩
  | piecewise c v d ihc ihv ihd =>
    obtain ⟨hc, ht, he⟩ :
        exactArith c = true ∧ exactArith v = true ∧ exactArith d = true := by
      simpa [exactArith, Bool.and_eq_true, and_assoc] using h
    rcases ihc hc with ⟨v0, hv⟩ | ⟨ex, m, hm⟩
    · by_cases hz : toQ v0 ≠ 0
      · rcases ihv ht with ⟨v2, hv2⟩ | ⟨ex2, m2, hm2⟩
        · exact .inl ⟨v2, by simp [evalI, hv, except_bind_ok, hz, hv2]⟩
        · exact .inr ⟨ex2, m2, by simp [evalI, hv, except_bind_ok, hz, hm2]⟩
      · rcases ihd he with ⟨v2, hv2⟩ | ⟨ex2, m2, hm2⟩
        · exact .inl ⟨v2, by simp [evalI, hv, except_bind_ok, hz, hv2]⟩
        · exact .inr ⟨ex2, m2, by simp [evalI, hv, except_bind_ok, hz, hm2]⟩
    · exact .inr ⟨ex, m, by simp [evalI, hm, except_bind_err]⟩

theorem opLinesAux_pair (i : Nat) (a b : Expr)
    (ha : exactArith a = true) (hb : exactArith b = true) :
    opLinesAux i [a, b] =
      .ok ["  (" ++ natStr i ++ ") " ++ operandValueStr a,
        "  (" ++ natStr (i + 1) ++ ") " ++ operandValueStr b] := by
  rcases exactArith_eval a ha with ⟨v, hv⟩ | ⟨ex, m, hm⟩ <;>
    rcases exactArith_eval b hb with ⟨v2, hv2⟩ | ⟨ex2, m2, hm2⟩ <;>
      simp [opLinesAux, operandValueStr, except_bind_ok, *]

theorem strInfix_of_mem (x : String) :
    ∀ l : List String, x ∈ l → strInfixP x (joinNL l) := by
  intro l
  induction l with
  | nil => intro hx; cases hx
  | cons p rest ih =>
    intro hx
    rcases List.mem_cons.1 hx with rfl | hmem
    · cases rest with
      | nil => exact List.infix_refl _
      | cons q r =>
        show strInfixP x ((x ++ "\n") ++ joinNL (q :: r))
        unfold strInfixP
        rw [sdata_append, sdata_append, List.append_assoc]
        exact (List.prefix_append _ _).isInfix
    · cases rest with
      | nil => cases hmem
      | cons q r =>
        have hi := ih hmem
        show strInfixP x ((p ++ "\n") ++ joinNL (q :: r))
        unfold strInfixP at hi ⊢
        rw [sdata_append]
        exact hi.trans (List.suffix_append _ _).isInfix

theorem pathE_self (E : Expr) : pathE E E = some [] := by
  unfold pathE
  rw [if_pos (pyEq_refl E)]

theorem exprErrorMessage_self (E : Expr) (m : String) :
    exprErrorMessage E E m =
      joinNL ([m, "Encountered when evaluating", "  " ++ code E] ++
        (match strFind ("  " ++ code E) (code E) with
         | some s =>
           [String.mk
             (List.replicate s ' ' ++ List.replicate (code E).data.length '~')]
         | none => [])) := by
  unfold exprErrorMessage
  rw [pathE_self]
  rfl

theorem numericalMessage_divide (a b : Expr)
    (ha : exactArith a = true) (hb : exactArith b = true) (m : String) :
    numericalMessage (.divide a b) (.divide a b) m =
      .ok (joinNL [exprErrorMessage (.divide a b) (.divide a b) m,
        "With the following operands:",
        "  (1) " ++ operandValueStr a,
        "  (2) " ++ operandValueStr b]) := by
  have hr : refs (Expr.divide a b) = [] := by
    simp [refs, exactArith_refs a ha, exactArith_refs b hb]
  have e1 : ("  (" ++ natStr 1 ++ ") " : String) = "  (1) " := rfl
  have e2 : ("  (" ++ natStr (1 + 1) ++ ") " : String) = "  (2) " := rfl
  unfold numericalMessage
  rw [hr]
  simp [operandsOf, opLinesAux_pair 1 a b ha hb, except_bind_ok, e1, e2]

/-- Claim C6: evaluating a `Divide` whose denominator evaluates to zero
raises `myokit.NumericalError` (the internal `EvalError` never escapes),
and the diagnostic message contains the offending sub-expression's rendered
code and the value of each operand re-evaluated in isolation, failures
shown as the `another error` placeholder.  Stated over operands in the
exactly-modelled arithmetic fragment; the denominator hypothesis is the
source's `b == 0` test. -/
theorem c6_divide_by_zero_numerical_error (a b : Expr) (vb : PyVal)
    (ha : exactArith a = true) (hb : exactArith b = true)
    (h1 : evalI b = .ok vb) (h2 : toQ vb = 0) :
    ∃ msg, pubEval (.divide a b) = .error (.numerical msg) ∧
      strInfixP ("  " ++ code (.divide a b)) msg ∧
      strInfixP ("  (1) " ++ operandValueStr a) msg ∧
      strInfixP ("  (2) " ++ operandValueStr b) msg := by
  have hE : evalI (.divide a b) = .error (.evalError (.divide a b) "") := by
    simp [evalI, h1, except_bind_ok, h2]
  have hM := numericalMessage_divide a b ha hb ""
  refine ⟨joinNL [exprErrorMessage (.divide a b) (.divide a b) "",
    "With the following operands:",
    "  (1) " ++ operandValueStr a,
    "  (2) " ++ operandValueStr b], ?_, ?_, ?_, ?_⟩
  · simp [pubEval, hE, hM]
  · have hinner :
        strInfixP ("  " ++ code (.divide a b))
          (exprErrorMessage (.divide a b) (.divide a b) "") := by
      rw [exprErrorMessage_self]
      exact strInfix_of_mem _ _ (by simp)
    have houter :
        strInfixP (exprErrorMessage (.divide a b) (.divide a b) "")
          (joinNL [exprErrorMessage (.divide a b) (.divide a b) "",
            "With the following operands:",
            "  (1) " ++ operandValueStr a,
            "  (2) " ++ operandValueStr b]) :=
      strInfix_of_mem _ _ (by simp)
    exact List.IsInfix.trans hinner houter
  · exact strInfix_of_mem _ _ (by simp)
  · exact strInfix_of_mem _ _ (by simp)

/-- Witness for claim C6 at `1 / 0`. -/
theorem c6_divide_by_zero_witness :
    (exactArith (Expr.num 1 none) = true) ∧
      (exactArith (Expr.num 0 none) = true) ∧
      (evalI (Expr.num 0 none) = .ok (.num 0)) ∧
      (toQ (.num 0) = 0) ∧
      (∃ msg, pubEval (.divide (.num 1 none) (.num 0 none)) =
          .error (.numerical msg) ∧
        strInfixP ("  " ++ code (.divide (.num 1 none) (.num 0 none))) msg ∧
        strInfixP ("  (1) " ++ operandValueStr (.num 1 none)) msg ∧
        strInfixP ("  (2) " ++ operandValueStr (.num 0 none)) msg) :=
  ⟨rfl, rfl, rfl, rfl,
    c6_divide_by_zero_numerical_error _ _ _ rfl rfl rfl rfl⟩

end Myokit
